import Mathlib

/-!
Verification of the statistics extraction, aggregation and view-state
reconciliation engine of the `cgroup_mem` terminal dashboard.

The Rust sources are shallowly embedded: pure string manipulation becomes
functions over `String` / `List Char`, filesystem reads become explicit
finite models of the readable file tree, `usize` becomes `Nat` (with the
`2 ^ 64` bound made explicit where integer parsing can overflow), and
fallible operations return `Except`/`Option`.
-/

namespace CgroupMem

/-! ### String primitives

Kernel-computable models of the Rust string operations used by the
sources (`str::split`, `str::split_whitespace`, `usize::from_str`,
lexicographic comparison).  They operate on `String.data` so that every
definition evaluates by `decide`.
-/

/-- Splits a character list at every character satisfying `p`, keeping empty
segments (models `str::split` with a char pattern, which yields empty
segments for leading/trailing/adjacent separators). -/
def splitPred (p : Char → Bool) : List Char → List (List Char)
  | [] => [[]]
  | c :: cs =>
    match splitPred p cs with
    | [] => [[]]
    | r :: rs => if p c then [] :: r :: rs else (c :: r) :: rs

/-- Models Rust `def.split('/')`: split on `'/'`, empty segments kept. -/
def splitSlash (s : String) : List String :=
  (splitPred (fun c => c = '/') s.data).map String.mk

/-- Models Rust `str::split_whitespace`: split on whitespace runs, empty
segments dropped. -/
def split_whitespace (s : String) : List String :=
  ((splitPred Char.isWhitespace s.data).filter (fun l => l ≠ [])).map String.mk

/-- Digit accumulator for `parseUsize`. -/
def digitsVal (cs : List Char) : Nat :=
  cs.foldl (fun a c => a * 10 + (c.toNat - 48)) 0

/-- Models Rust `<usize as FromStr>::from_str`: an optional leading `'+'`,
then one or more ASCII digits, failing on any other character, on the empty
string and on overflow of the 64-bit `usize` range. -/
def parseUsize (s : String) : Option Nat :=
  let cs := match s.data with
    | '+' :: rest => rest
    | cs => cs
  if cs = [] then none
  else if cs.all (fun c => c.isDigit) then
    let n := digitsVal cs
    if n < 2 ^ 64 then some n else none
  else none

/-- Strict lexicographic order on character lists (models byte-wise `Ord` on
Rust strings, faithful for the ASCII names that occur in cgroup paths). -/
def charsLt : List Char → List Char → Bool
  | [], [] => false
  | [], _ :: _ => true
  | _ :: _, [] => false
  | a :: as, b :: bs => if a < b then true else if b < a then false else charsLt as bs

/-- Strict order on strings, via `charsLt`. -/
def strLtB (a b : String) : Bool :=
  charsLt a.data b.data

/-- Non-strict component-wise order on paths (a `Path` is modelled as its
list of components; this models `Path::cmp(a, b) != Ordering::Greater`). -/
def pathLeB : List String → List String → Bool
  | [], _ => true
  | _ :: _, [] => false
  | a :: as, b :: bs => if strLtB a b then true else if strLtB b a then false else pathLeB as bs

/-! ### File processors (src/src/file_proc)

A readable filesystem is modelled as a map from a full path (list of
components) to either the decoded lines of the file or an I/O error
message: this is exactly what the `File::open` + `BufReader::lines`
combination used by every processor observes. -/

/-- Models `FileProcessorError` (src/src/file_proc/mod.rs). -/
inductive FileProcessorError where
  | ioError (msg : String)
  | valueNotFound
  | parseError (msg : String)
deriving DecidableEq, Repr

/-- A readable filesystem: path ↦ decoded text lines or I/O error. -/
def FileSys : Type :=
  List String → Except String (List String)

/-- Decidable equality for `Except`, used to evaluate concrete runs. -/
def exceptDecEq {ε α : Type} [DecidableEq ε] [DecidableEq α] :
    DecidableEq (Except ε α)
  | .ok a, .ok b =>
    if h : a = b then isTrue (by rw [h]) else isFalse (by simp [h])
  | .ok _, .error _ => isFalse (by simp)
  | .error _, .ok _ => isFalse (by simp)
  | .error e, .error f =>
    if h : e = f then isTrue (by rw [h]) else isFalse (by simp [h])

instance {ε α : Type} [DecidableEq ε] [DecidableEq α] : DecidableEq (Except ε α) :=
  exceptDecEq

/-- Models `SingleValueProcessor` (src/src/file_proc/single_value/mod.rs). -/
structure SingleValueProcessor where
  file : Option String := none
deriving DecidableEq, Repr

/-- Models `SingleValueProcessor::get_value`: push the configured file name
onto the base path, open the file, return its first line;
`ValueNotFound` on an empty file. -/
def SingleValueProcessor.get_value (p : SingleValueProcessor) (fs : FileSys)
    (path : List String) : Except FileProcessorError String :=
  let path := match p.file with
    | some f => path ++ [f]
    | none => path
  match fs path with
  | .error e => .error (.ioError e)
  | .ok [] => .error .valueNotFound
  | .ok (line :: _) => .ok line

/-- Models `CountProcessor` (src/src/file_proc/count/mod.rs). -/
structure CountProcessor where
  file : Option String := none
deriving DecidableEq, Repr

/-- Models `CountProcessor::get_value`: the number of lines, rendered as a
string. -/
def CountProcessor.get_value (p : CountProcessor) (fs : FileSys)
    (path : List String) : Except FileProcessorError String :=
  let path := match p.file with
    | some f => path ++ [f]
    | none => path
  match fs path with
  | .error e => .error (.ioError e)
  | .ok lines => .ok (Nat.repr lines.length)

/-- Models `KeyedProcessor` (src/src/file_proc/keyed/mod.rs). -/
structure KeyedProcessor where
  file : Option String := none
  match_col : Nat := 0
  match_val : String := ""
  ret_col : Nat := 0
deriving DecidableEq, Repr

/-- The line scan of `KeyedProcessor::get_value`.  A line is split on
whitespace; the guard is the source's
`self.match_col < columns.len() && columns[self.match_col - 1] == self.match_val`
(note the strict `<`, so a line with exactly `match_col` columns is never
considered a match); on a match, `ValueNotFound` if `ret_col` exceeds the
column count, otherwise column `ret_col` (1-based).  Indexing uses `getD`
with a default that the bounds guards make unreachable. -/
def keyedScan (match_col : Nat) (match_val : String) (ret_col : Nat) :
    List String → Except FileProcessorError String
  | [] => .error .valueNotFound
  | line :: rest =>
    let columns := split_whitespace line
    if match_col < columns.length ∧ columns.getD (match_col - 1) "" = match_val then
      if ret_col > columns.length then .error .valueNotFound
      else .ok (columns.getD (ret_col - 1) "")
    else keyedScan match_col match_val ret_col rest

/-- Models `KeyedProcessor::get_value`: push the configured file name, open
the file, scan its lines with `keyedScan`. -/
def KeyedProcessor.get_value (p : KeyedProcessor) (fs : FileSys)
    (path : List String) : Except FileProcessorError String :=
  let path := match p.file with
    | some f => path ++ [f]
    | none => path
  match fs path with
  | .error e => .error (.ioError e)
  | .ok lines => keyedScan p.match_col p.match_val p.ret_col lines

/-- The closed sum of the three processor strategies behind
`Box<dyn FileProcessor>` (the strategy set is closed, per the design
notes). -/
inductive FileProc where
  | single (p : SingleValueProcessor)
  | keyed (p : KeyedProcessor)
  | count (p : CountProcessor)
deriving DecidableEq, Repr

/-- Dynamic dispatch of `FileProcessor::get_value`. -/
def FileProc.get_value : FileProc → FileSys → List String → Except FileProcessorError String
  | .single p, fs, path => p.get_value fs path
  | .keyed p, fs, path => p.get_value fs path
  | .count p, fs, path => p.get_value fs path

/-- Models `<dyn FileProcessor>::get_stat` (src/src/file_proc/mod.rs): parse
the extracted string as a `usize`, turning a parse failure into
`ParseError`. -/
def FileProc.get_stat (p : FileProc) (fs : FileSys) (path : List String) :
    Except FileProcessorError Nat :=
  match p.get_value fs path with
  | .error e => .error e
  | .ok v =>
    match parseUsize v with
    | some n => .ok n
    | none => .error (.parseError v)

/-- Models `get_file_processor` (src/src/file_proc/mod.rs lines 48-101):
compile a stat definition string into a processor, `none` for every
unrecognized shape.  Indexing into the split uses `getD`; every use is
guarded by the preceding length checks exactly as in the source. -/
def get_file_processor (sdef : String) : Option FileProc :=
  let split := splitSlash sdef
  if split.isEmpty ∨ split.headD "" = "" then none
  else if split.length = 1 then
    some (.single { file := some (split.headD "") })
  else
    match split.getD 1 "" with
    | "=" =>
      if split.length ≠ 5 ∨ split.getD 3 "" = "" then none
      else
        match parseUsize (split.getD 2 ""), parseUsize (split.getD 4 "") with
        | some match_col, some ret_col =>
          if match_col = 0 ∨ ret_col = 0 then none
          else some (.keyed { file := some (split.headD ""), match_col,
                              match_val := split.getD 3 "", ret_col })
        | _, _ => none
    | "#" =>
      if split.length ≠ 2 then none
      else some (.count { file := some (split.headD "") })
    | _ => none

/-! ### CGroup tree loader (src/src/cgroup/mod.rs)

The part of the filesystem the loader observes is, per directory: whether
`read_dir` succeeds and with which subdirectory entries, and what the
configured `StatProcessor` returns for the directory (`get_stat` reads the
directory's stat file; its result — a value or an error message — is the
`stat` field of the model).  `FsDir`/`FsEntries` and `CGroup`/`CGroups`
are mutual pairs so that every function on them is structurally recursive
and kernel-computable. -/

mutual
/-- A cgroup directory as `load_cgroup_rec` observes it: `bad msg` models a
`read_dir` failure; `good stat entries` models a readable directory with
the given `processor.get_stat` outcome and subdirectory entries. -/
inductive FsDir where
  | bad (msg : String)
  | good (stat : Except String Nat) (entries : FsEntries)
deriving DecidableEq
/-- Subdirectory entries in `read_dir` order. -/
inductive FsEntries where
  | nil
  | cons (name : String) (d : FsDir) (rest : FsEntries)
deriving DecidableEq
end

mutual
/-- Models `CGroup` (src/src/cgroup/mod.rs lines 15-21): relative path
(list of components; root = empty), optional error message, statistic,
ordered children. -/
inductive CGroup where
  | mk (path : List String) (error : Option String) (stat : Nat) (children : CGroups)
deriving DecidableEq
/-- The ordered children of a `CGroup`. -/
inductive CGroups where
  | nil
  | cons (c : CGroup) (cs : CGroups)
deriving DecidableEq
end

/-- The relative path of a node. -/
def CGroup.path : CGroup → List String
  | .mk p _ _ _ => p

/-- The error message of a node, if any. -/
def CGroup.error : CGroup → Option String
  | .mk _ e _ _ => e

/-- The statistic of a node. -/
def CGroup.stat : CGroup → Nat
  | .mk _ _ s _ => s

/-- The children of a node. -/
def CGroup.children : CGroup → CGroups
  | .mk _ _ _ cs => cs

/-- Children as a `List`. -/
def CGroups.toList : CGroups → List CGroup
  | .nil => []
  | .cons c cs => c :: cs.toList

/-- Children from a `List`. -/
def CGroups.ofList : List CGroup → CGroups
  | [] => .nil
  | c :: cs => .cons c (ofList cs)

/-- The children of a node, as a `List`. -/
def CGroup.childList (c : CGroup) : List CGroup :=
  c.children.toList

/-- Models `CGroup::new`. -/
def CGroup.new (path : List String) : CGroup :=
  .mk path none 0 .nil

/-- Models `CGroup::new_error`. -/
def CGroup.new_error (path : List String) (msg : String) : CGroup :=
  .mk path (some msg) 0 .nil

/-- Models `SortOrder` (src/src/cgroup/mod.rs lines 78-84). -/
inductive SortOrder where
  | nameAsc
  | nameDsc
  | sizeAsc
  | sizeDsc
deriving DecidableEq

/-- The comparator of the `sort_by` calls in lines 152-157, as the
"precedes or ties" relation `cmp(a, b) != Greater` that determines a
stable sort. -/
def sortLe (sort : SortOrder) (a b : CGroup) : Bool :=
  match sort with
  | .nameAsc => pathLeB a.path b.path
  | .nameDsc => pathLeB b.path a.path
  | .sizeAsc => decide (a.stat ≤ b.stat)
  | .sizeDsc => decide (b.stat ≤ a.stat)

/-- Models the stable `children.sort_by(...)` of lines 151-157.  Rust's
`slice::sort_by` is a stable sort and a stable sort is uniquely determined
by its comparator, so `List.insertionSort` (also stable) is the same
function. -/
def sort_children (sort : SortOrder) (c : CGroup) : CGroup :=
  .mk c.path c.error c.stat
    (CGroups.ofList (List.insertionSort (fun a b => sortLe sort a b = true) c.childList))

/-- Models `children.iter().map(|c| c.stat).sum()` (line 140). -/
def childSum (cs : List CGroup) : Nat :=
  (cs.map CGroup.stat).sum

/-- Models lines 138-149: if the node has children and their statistic sum
is strictly below the node's own statistic, append a synthetic `<self>`
node holding the difference. -/
def add_self (c : CGroup) : CGroup :=
  if c.childList ≠ [] then
    if childSum c.childList < c.stat then
      .mk c.path c.error c.stat
        (CGroups.ofList (c.childList ++
          [CGroup.mk (c.path ++ ["<self>"]) none (c.stat - childSum c.childList) .nil]))
    else c
  else c

/-- A child subtree result (lines 121-126): the loaded node on success, an
error node carrying the message on failure. -/
def orErrorNode (path : List String) : Except String CGroup → CGroup
  | .ok c => c
  | .error e => CGroup.new_error path e

mutual
/-- Models `load_cgroup_rec` (src/src/cgroup/mod.rs lines 106-160): recurse
into the subdirectories first (a failing subtree becomes an error node),
then record this directory's own statistic or error message, then append
the synthetic `<self>` node, then stable-sort the children.  The whole
call fails only when `read_dir` fails for this directory itself. -/
def load_cgroup_rec (sort : SortOrder) : FsDir → List String → Except String CGroup
  | .bad msg, _ => .error msg
  | .good stat entries, rel_path =>
    let children := load_children sort entries rel_path
    match stat with
    | .ok s =>
      .ok (sort_children sort (add_self (.mk rel_path none s (CGroups.ofList children))))
    | .error e =>
      .ok (sort_children sort (add_self (.mk rel_path (some e) 0 (CGroups.ofList children))))
/-- The loop over `read_dir` entries (lines 112-130). -/
def load_children (sort : SortOrder) : FsEntries → List String → List CGroup
  | .nil, _ => []
  | .cons name d rest, rel_path =>
    orErrorNode (rel_path ++ [name]) (load_cgroup_rec sort d (rel_path ++ [name])) ::
      load_children sort rest rel_path
end

/-- Models `load_cgroups` (src/src/cgroup/mod.rs lines 86-104): load the
hierarchy root under the empty relative path; if the loaded root's
statistic is zero, return its children directly, otherwise the single
root node; if the root read failed, degrade to a single error node. -/
def load_cgroups (fs : FsDir) (sort : SortOrder) : List CGroup :=
  match load_cgroup_rec sort fs [] with
  | .ok cgroup => if cgroup.stat = 0 then cgroup.childList else [cgroup]
  | .error e => [CGroup.new_error [] e]

mutual
/-- `p` holds at a node and at every descendant. -/
def allNodesB (p : CGroup → Bool) : CGroup → Bool
  | .mk path err stat cs => p (.mk path err stat cs) && allNodesListB p cs
/-- `allNodesB` over a child list. -/
def allNodesListB (p : CGroup → Bool) : CGroups → Bool
  | .nil => true
  | .cons c cs => allNodesB p c && allNodesListB p cs
end

mutual
/-- No directory anywhere in the hierarchy is itself named `"<self>"`, the
loader's synthetic-node sentinel. -/
def noSelfDir : FsDir → Bool
  | .bad _ => true
  | .good _ entries => noSelfEntries entries
/-- `noSelfDir` over entries, also checking the entry names. -/
def noSelfEntries : FsEntries → Bool
  | .nil => true
  | .cons name d rest => decide (name ≠ "<self>") && noSelfDir d && noSelfEntries rest
end

/-- The entry names of a directory, in order. -/
def namesOf : FsEntries → List String
  | .nil => []
  | .cons name _ rest => name :: namesOf rest

/-- Entries as a list of name/directory pairs. -/
def FsEntries.toList : FsEntries → List (String × FsDir)
  | .nil => []
  | .cons name d rest => (name, d) :: rest.toList

/-- The children of `n` that look like the synthetic self node: their path
is the parent's path extended with the `"<self>"` sentinel. -/
def selfKids (n : CGroup) : List CGroup :=
  n.childList.filter (fun c => decide (c.path = n.path ++ ["<self>"]))

/-- The other children of `n`. -/
def realKids (n : CGroup) : List CGroup :=
  n.childList.filter (fun c => decide (¬ c.path = n.path ++ ["<self>"]))

/-- The cumulative-aggregation invariant that actually holds at a node
after self-node synthesis: the node's statistic is at most the sum of its
children's statistics; a self child is present iff the other children's
sum is strictly below the node's own statistic; and every self child holds
exactly that difference. -/
def goodCumulB (n : CGroup) : Bool :=
  decide (n.childList = []) ||
    (decide (n.stat ≤ childSum n.childList) &&
     (decide (selfKids n ≠ []) == decide (childSum (realKids n) < n.stat)) &&
     (selfKids n).all (fun sc => sc.stat == n.stat - childSum (realKids n)))

/-- Claim C1's stated property at a node: the node's statistic is at least
the sum of its children's statistics, with the same self-child
characterization. -/
def claimC1B (n : CGroup) : Bool :=
  decide (n.childList = []) ||
    (decide (childSum n.childList ≤ n.stat) &&
     (decide (selfKids n ≠ []) == decide (childSum (realKids n) < n.stat)) &&
     (selfKids n).all (fun sc => sc.stat == n.stat - childSum (realKids n)))


/-! ### Concrete hierarchies used by witnesses and counterexamples -/

def fsC1w : FsDir :=
  .good (.ok 300)
    (.cons "child1" (.good (.ok 100) .nil)
      (.cons "child2" (.good (.ok 150) .nil) .nil))

def fsC1cex : FsDir :=
  .good (.ok 5) (.cons "a" (.good (.ok 10) .nil) .nil)

def fsC5a : FsDir :=
  .good (.error "no file") (.cons "a" (.good (.ok 1) .nil) .nil)

def rootC5 : CGroup :=
  .mk [] (some "no file") 0 (.cons (.mk ["a"] none 1 .nil) .nil)

def entsC5 : FsEntries :=
  .cons "a" (.bad "denied") .nil


/-- The keyed extraction algorithm exactly as claim C3 states it: the
first line whose m-th whitespace-split column (lines with fewer than m
columns skipped) equals the match value; ValueNotFound when none matches
or the matching line has fewer than r columns. -/
def keyedClaimSpec (m : Nat) (v : String) (r : Nat) (lines : List String) :
    Except FileProcessorError String :=
  match lines.find? (fun line => decide (m ≤ (split_whitespace line).length) &&
      ((split_whitespace line).getD (m - 1) "" == v)) with
  | none => .error .valueNotFound
  | some line =>
    if (split_whitespace line).length < r then .error .valueNotFound
    else .ok ((split_whitespace line).getD (r - 1) "")

/-- The amended keyed extraction: a line is considered only when it has
strictly more than m columns (the source's off-by-one guard), otherwise
identical to the claimed algorithm. -/
def keyedSpecAmended (m : Nat) (v : String) (r : Nat) (lines : List String) :
    Except FileProcessorError String :=
  match lines.find? (fun line => decide (m < (split_whitespace line).length) &&
      ((split_whitespace line).getD (m - 1) "" == v)) with
  | none => .error .valueNotFound
  | some line =>
    if r > (split_whitespace line).length then .error .valueNotFound
    else .ok ((split_whitespace line).getD (r - 1) "")

def fsC3cex : FileSys :=
  fun p => if p = ["d", "f"] then .ok ["200 v"] else .error "not found"

def kpC3cex : KeyedProcessor :=
  { file := some "f", match_col := 2, match_val := "v", ret_col := 1 }

def fsC3w : FileSys :=
  fun p => if p = ["d", "f"] then .ok ["anon 100", "file 200"] else .error "not found"

def kpC3w : KeyedProcessor :=
  { file := some "f", match_col := 1, match_val := "file", ret_col := 2 }


/-- The amended claim's parser rules, in order: one non-empty segment is a
single-value extractor; five segments with "=" second, a non-empty file
segment, both column indices parsing as nonzero usize and a non-empty
match value give a keyed extractor; two segments with "#" second and a
non-empty file segment give a line-count extractor; anything else is
Unrecognized. -/
def parserSpecC4 (sdef : String) : Option FileProc :=
  let seg := splitSlash sdef
  if seg.length = 1 then
    if seg.headD "" ≠ "" then some (.single { file := some (seg.headD "") }) else none
  else if seg.length = 5 ∧ seg.getD 1 "" = "=" then
    if seg.headD "" = "" then none
    else
      match parseUsize (seg.getD 2 ""), parseUsize (seg.getD 4 "") with
      | some mc, some rc =>
        if mc = 0 ∨ rc = 0 ∨ seg.getD 3 "" = "" then none
        else some (.keyed { file := some (seg.headD ""), match_col := mc,
                            match_val := seg.getD 3 "", ret_col := rc })
      | _, _ => none
  else if seg.length = 2 ∧ seg.getD 1 "" = "#" then
    if seg.headD "" = "" then none else some (.count { file := some (seg.headD "") })
  else none


/-- Models `StatType` (src/src/cgroup/stats.rs lines 144-148): cumulative
memory quantity vs non-cumulative count. -/
inductive StatType where
  | memQtyCumul
  | qty
deriving DecidableEq

/-- Modelled from the spec: the non-cumulative (plain quantity)
aggregation step of §4.3 step 3, which is dispatched on `StatType` but is
not present in the `load_cgroup_rec` under src/ (src/ only declares
`StatType` in src/src/cgroup/stats.rs): if the children's sum is positive,
promote the node's own value into a self node (when nonzero) and redefine
the node's value as own plus the children's sum; otherwise leave the node
unchanged. -/
def aggregate_qty (c : CGroup) : CGroup :=
  if 0 < childSum c.childList then
    if c.stat ≠ 0 then
      .mk c.path c.error (c.stat + childSum c.childList)
        (CGroups.ofList (c.childList ++ [.mk (c.path ++ ["<self>"]) none c.stat .nil]))
    else
      .mk c.path c.error (c.stat + childSum c.childList) c.children
  else c

/-- Modelled from the spec: the `StatType`-dispatched aggregation policy of
§4.3 step 3 (cumulative = the source's self-node synthesis, plain quantity
= `aggregate_qty`). -/
def aggregate_step : StatType → CGroup → CGroup
  | .memQtyCumul, c => add_self c
  | .qty, c => aggregate_qty c

mutual
/-- Modelled from the spec: `load_cgroup_rec` with the `StatType`-dispatched
aggregation policy of §4.3 (the src/ loader has only the cumulative
branch). -/
def load_cgroup_rec_typed (stype : StatType) (sort : SortOrder) :
    FsDir → List String → Except String CGroup
  | .bad msg, _ => .error msg
  | .good stat entries, rel_path =>
    let children := load_children_typed stype sort entries rel_path
    match stat with
    | .ok s =>
      .ok (sort_children sort (aggregate_step stype (.mk rel_path none s (CGroups.ofList children))))
    | .error e =>
      .ok (sort_children sort (aggregate_step stype (.mk rel_path (some e) 0 (CGroups.ofList children))))
/-- The loop over `read_dir` entries for the typed loader. -/
def load_children_typed (stype : StatType) (sort : SortOrder) :
    FsEntries → List String → List CGroup
  | .nil, _ => []
  | .cons name d rest, rel_path =>
    orErrorNode (rel_path ++ [name])
        (load_cgroup_rec_typed stype sort d (rel_path ++ [name])) ::
      load_children_typed stype sort rest rel_path
end

/-- Modelled from the spec: the top level of the typed loader, mirroring
`load_cgroups`. -/
def load_cgroups_typed (stype : StatType) (fs : FsDir) (sort : SortOrder) : List CGroup :=
  match load_cgroup_rec_typed stype sort fs [] with
  | .ok cgroup => if cgroup.stat = 0 then cgroup.childList else [cgroup]
  | .error e => [CGroup.new_error [] e]

mutual
/-- The subtree total of the per-directory own values (an unreadable
directory contributes zero, as does a directory whose statistic read
fails). -/
def qtyTotal : FsDir → Nat
  | .bad _ => 0
  | .good stat entries =>
    (match stat with
     | .ok s => s
     | .error _ => 0) + qtyTotalEntries entries
/-- `qtyTotal` summed over entries. -/
def qtyTotalEntries : FsEntries → Nat
  | .nil => 0
  | .cons _ d rest => qtyTotal d + qtyTotalEntries rest
end

/-- The quantity-aggregation invariant at one node, stated over the
aggregated tree: writing S for the sum of the non-self children (the
recursively aggregated real children) the displayed statistic is `own +
S` where `own := stat - S` is the node's original own value, so `S ≤
stat`; a self child is present iff the original own value and S are both
positive; and every self child carries exactly the original own value. -/
def goodQtyB (n : CGroup) : Bool :=
  decide (childSum (realKids n) ≤ n.stat) &&
  (decide (selfKids n ≠ []) ==
    (decide (0 < n.stat - childSum (realKids n)) && decide (0 < childSum (realKids n)))) &&
  (selfKids n).all (fun sc => sc.stat == n.stat - childSum (realKids n))


def fsC2w : FsDir :=
  .good (.ok 2)
    (.cons "a" (.good (.ok 3) .nil)
      (.cons "b" (.good (.ok 4) .nil) .nil))

def rootC2w : CGroup :=
  .mk [] none 9
    (.cons (.mk ["<self>"] none 2 .nil)
      (.cons (.mk ["a"] none 3 .nil)
        (.cons (.mk ["b"] none 4 .nil) .nil)))


/-! ### Process lister (src/src/proc/mod.rs) -/

mutual
/-- A cgroup directory as `load_pids` observes it: the decoded lines (or
open error) of its `cgroup.procs` and `cgroup.threads` files, and the
`read_dir` outcome for its subdirectories. -/
inductive PDir where
  | mk (procsFile : Except String (List String)) (threadsFile : Except String (List String))
       (subs : PSubs)
deriving DecidableEq
/-- The `read_dir` outcome: failure or child directories in order. -/
inductive PSubs where
  | err (msg : String)
  | ok (ds : PDirs)
deriving DecidableEq
/-- Child directories. -/
inductive PDirs where
  | nil
  | cons (d : PDir) (rest : PDirs)
deriving DecidableEq
end

/-- Models the pid-line parse in `load_pids` (lines 131-141): every line
must parse as a usize; the first bad line aborts the whole collection
with an InvalidData error. -/
def parsePids : List String → Except String (List Nat)
  | [] => .ok []
  | l :: ls =>
    match parseUsize l with
    | none => .error ("invalid pid: " ++ l)
    | some n =>
      match parsePids ls with
      | .error e => .error e
      | .ok ns => .ok (n :: ns)

mutual
/-- Models `load_pids` (src/src/proc/mod.rs lines 118-159): open
`cgroup.threads` or `cgroup.procs` (open failure is a hard error), parse
every line as a pid (a bad line is a hard error), and when
`include_children` is set, `read_dir` the directory (failure is a hard
error) and append the pids of every child, swallowing child failures. -/
def load_pids (threads include_children : Bool) : PDir → Except String (List Nat)
  | .mk procsFile threadsFile subs =>
    match (if threads then threadsFile else procsFile) with
    | .error e => .error e
    | .ok lines =>
      match parsePids lines with
      | .error e => .error e
      | .ok pids =>
        if include_children then
          match subs with
          | .err e => .error e
          | .ok ds => .ok (pids ++ load_pids_each threads ds)
        else .ok pids
/-- The child loop of `load_pids` (lines 144-156): recurse with
`include_children = true`; a failing child is filtered out
(`filter_map(|e| e.ok())`) and contributes nothing. -/
def load_pids_each (threads : Bool) : PDirs → List Nat
  | .nil => []
  | .cons d rest =>
    (match load_pids threads true d with
     | .ok ps => ps
     | .error _ => []) ++ load_pids_each threads rest
end

/-- Models `ProcStatType` (src/src/cgroup/stats.rs lines 150-154). -/
inductive ProcStatType where
  | none
  | memQtyKb
deriving DecidableEq

/-- Models `Stat` (src/src/cgroup/stats.rs lines 156-164); `sdef` is the
source's `def` field. -/
structure Stat where
  sdef : String
  short_desc : String
  desc : String
  stype : StatType
  proc_def : String
  proc_short_desc : String
  proc_stype : ProcStatType
deriving DecidableEq

/-- Models the `STATS` table (src/src/cgroup/stats.rs lines 1-142), with
the exact definition strings and types of the source. -/
def STATS : List Stat := [
  ⟨"memory.current", "Current Total", "Current total memory usage including descendents",
    .memQtyCumul, "status/=/1/VmRSS:/2", "RSS", .memQtyKb⟩,
  ⟨"memory.swap.current", "Current Swap", "Current total swap usage including descendents",
    .memQtyCumul, "status/=/1/VmSwap:/2", "Swap", .memQtyKb⟩,
  ⟨"memory.stat/=/1/anon/2", "Anonymous", "Amount of memory used in anonymous mappings.",
    .memQtyCumul, "status/=/1/RssAnon:/2", "Anonymous", .memQtyKb⟩,
  ⟨"memory.stat/=/1/file/2", "File Cache",
    "Amount of memory used to cache filesystem data, including tmpfs and shared memory.",
    .memQtyCumul, "", "", .none⟩,
  ⟨"memory.stat/=/1/kernel_stack/2", "Kernel Stack",
    "Amount of memory allocated to kernel stacks.", .memQtyCumul, "", "", .none⟩,
  ⟨"memory.stat/=/1/pagetables/2", "Page Table", "Amount of memory used for page tables.",
    .memQtyCumul, "status/=/1/VmPTE:/2", "VM PTE", .memQtyKb⟩,
  ⟨"memory.stat/=/1/percpu/2", "Per CPU",
    "Amount of memory used for per-cpu data structures.", .memQtyCumul, "", "", .none⟩,
  ⟨"memory.stat/=/1/sock/2", "Socket",
    "Amount of memory used in network transmission buffers.", .memQtyCumul, "", "", .none⟩,
  ⟨"memory.stat/=/1/shmem/2", "Swap Backed",
    "Amount of cached filesystem data that is swap-backed.",
    .memQtyCumul, "status/=RssShmem:/2", "RSS ShMem", .memQtyKb⟩,
  ⟨"memory.stat/=/1/file_mapped/2", "File Mapped", "Amount of cached filesystem data mapped.",
    .memQtyCumul, "status/=/1/RssFile:/2", "RSS File", .memQtyKb⟩,
  ⟨"memory.stat/=/1/file_dirty/2", "File Dirty",
    "Amount of cached filesystem data that was modified but not yet written back to disk.",
    .memQtyCumul, "", "", .none⟩,
  ⟨"memory.stat/=/1/file_writeback/2", "File Writeback",
    "Amount of cached filesystem data that was modified and is currently being written back to disk",
    .memQtyCumul, "", "", .none⟩,
  ⟨"memory.stat/=/1/swapcached/2", "Swap Cached", "Amount of memory cached in swap.",
    .memQtyCumul, "", "", .none⟩,
  ⟨"memory.stat/=/1/unevictable/2", "Unevictable", "Amount of unevictable memory.",
    .memQtyCumul, "status/=/1/VmPin:/2", "VM Pin", .memQtyKb⟩,
  ⟨"memory.stat/=/1/slab/2", "Slab",
    "Amount of memory used for storing in-kernel data structures.",
    .memQtyCumul, "", "", .none⟩,
  ⟨"cgroup.procs/#", "Processes", "Number of processes.", .qty, "", "", .none⟩,
  ⟨"cgroup.threads/#", "Threads", "Number of threads.", .qty, "", "", .none⟩]

/-- Models `STATS[stat]`: the Rust indexing panics out of bounds; every use
in the claims is at an in-bounds index, where `getD` agrees. -/
def statAt (i : Nat) : Stat :=
  STATS.getD i ⟨"", "", "", .memQtyCumul, "", "", .none⟩

/-- Models `Proc` (src/src/proc/mod.rs lines 12-16). -/
structure Proc where
  pid : Nat
  cmd : String
  stat : Except FileProcessorError Nat
deriving DecidableEq

/-- Models `ProcSortOrder` (src/src/proc/mod.rs lines 18-26). -/
inductive ProcSortOrder where
  | pidAsc
  | pidDsc
  | statAsc
  | statDsc
  | cmdAsc
  | cmdDsc
deriving DecidableEq

/-- Models `a.stat.as_ref().unwrap_or(&0)` in the stat sort (lines
96-112): an extraction error sorts as zero. -/
def statKey (p : Proc) : Nat :=
  match p.stat with
  | .ok v => v
  | .error _ => 0

/-- The comparator of the `sort_by` calls in lines 91-113, as the
"precedes or ties" relation of the stable sort. -/
def procSortLe (sort : ProcSortOrder) (a b : Proc) : Bool :=
  match sort with
  | .pidAsc => decide (a.pid ≤ b.pid)
  | .pidDsc => decide (b.pid ≤ a.pid)
  | .cmdAsc => ! strLtB b.cmd a.cmd
  | .cmdDsc => ! strLtB a.cmd b.cmd
  | .statAsc => decide (statKey a ≤ statKey b)
  | .statDsc => decide (statKey b ≤ statKey a)

/-- Models the stable `procs.sort_by(...)` (lines 90-113). -/
def sort_procs (sort : ProcSortOrder) (procs : List Proc) : List Proc :=
  List.insertionSort (fun a b => procSortLe sort a b = true) procs

/-- Models the per-process command-line resolution (lines 56-65): the
NUL-to-space mapped `cmdline`, else the bracketed `comm`, else
`"<Unknown>"`. -/
def resolveCmd (fs : FileSys) : String :=
  match (SingleValueProcessor.mk none).get_value fs ["cmdline"] with
  | .ok s => String.mk (s.data.map (fun c => if c = Char.ofNat 0 then ' ' else c))
  | .error _ =>
    match (SingleValueProcessor.mk none).get_value fs ["comm"] with
    | .ok s => "[" ++ s ++ "]"
    | .error _ => "<Unknown>"

/-- Models the per-process statistic (lines 67-84): run the stat processor
when one exists, multiplying a successful value by 1024 for the
kilobyte-unit process stats; `Ok(0)` when the statistic has no
process-level analog.  The source's `_ => panic!` arm (a processor
present with `ProcStatType::None`) is unreachable for the `STATS` table —
see `C8_kb_normalization`'s table fact — and is modelled as returning the
raw value. -/
def procStatValue (stat_processor : Option FileProc) (stat_type : ProcStatType)
    (fs : FileSys) : Except FileProcessorError Nat :=
  match stat_processor with
  | some processor =>
    match stat_type with
    | .memQtyKb =>
      match processor.get_stat fs [] with
      | .ok v => .ok (v * 1024)
      | .error e => .error e
    | .none => processor.get_stat fs []
  | none => .ok 0

/-- Models `load_procs` (src/src/proc/mod.rs lines 28-116): load the pid
list, resolve each pid's command text and statistic from its `/proc`
pseudo-directory, and stable-sort the entries. -/
def load_procs (cg : PDir) (procFs : Nat → FileSys) (include_children threads : Bool)
    (stat : Nat) (sort : ProcSortOrder) : Except String (List Proc) :=
  match load_pids threads include_children cg with
  | .error e => .error e
  | .ok pids =>
    let stat_processor := get_file_processor (statAt stat).proc_def
    let stat_type := (statAt stat).proc_stype
    let procs := pids.map (fun pid =>
      { pid := pid,
        cmd := resolveCmd (procFs pid),
        stat := procStatValue stat_processor stat_type (procFs pid) : Proc })
    .ok (sort_procs sort procs)

/-- Models `ProcsScene::resolve_sort` (src/src/app/scenes/procs/mod.rs
lines 126-136): when the active statistic has no process-level analog, a
stat sort falls back to the pid sort of the same direction. -/
def resolve_sort (stat : Nat) (proc_sort : ProcSortOrder) : ProcSortOrder :=
  if (statAt stat).proc_stype = ProcStatType.none then
    match proc_sort with
    | .statAsc => .pidAsc
    | .statDsc => .pidDsc
    | s => s
  else proc_sort


/-- Models the `TableState` of the tui crate as the process table uses it:
the selected row index, if any. -/
structure TableStateM where
  selected : Option Nat
deriving DecidableEq

/-- Models the selection-relevant state of `ProcsTable`
(src/src/app/scenes/procs/table.rs lines 18-27). -/
structure ProcsTableM where
  error : Option String
  procs : List Proc
  state : TableStateM
deriving DecidableEq

/-- Models `ProcsTable::reset` (table.rs lines 313-315): the table state
returns to default (no selection); the loaded rows are untouched. -/
def ProcsTableM.reset (t : ProcsTableM) : ProcsTableM :=
  { t with state := { selected := none } }

/-- Models the targeting state of `ProcsScene`
(src/src/app/scenes/procs/mod.rs). -/
structure ProcsSceneM where
  cgroup : List String
  table : ProcsTableM
deriving DecidableEq

/-- Models `ProcsScene::set_cgroup` (procs/mod.rs lines 60-68): strip a
trailing `"<self>"` sentinel component (targeting the parent), store the
path, reset the table state. -/
def ProcsSceneM.set_cgroup (scene : ProcsSceneM) (path : List String) : ProcsSceneM :=
  let path := if path.getLast? = some "<self>" then path.dropLast else path
  { scene with cgroup := path, table := scene.table.reset }

def pdC7 : PDir := .mk (.ok ["12", "x9"]) (.ok []) (.ok .nil)

def pdC7bad : PDir := .mk (.error "denied") (.error "denied") (.ok .nil)

def sceneC10 : ProcsSceneM :=
  { cgroup := [], table := { error := none, procs := [], state := { selected := some 3 } } }


def cgC8 : PDir := .mk (.ok ["42"]) (.ok []) (.ok .nil)

def procFsC8 : Nat → FileSys := fun _ p =>
  if p = ["status"] then .ok ["VmRSS: 4 kB"]
  else if p = ["cmdline"] then .ok ["foo"]
  else .error "not found"

def procC8 : FileProc :=
  .keyed { file := some "status", match_col := 1, match_val := "VmRSS:", ret_col := 2 }


/-! ### Tree and table view-state reconciliation
(src/src/app/scenes/cgroup_tree/tree.rs, src/src/app/scenes/procs/table.rs) -/

/-- Models the `TreeState` of the tui-tree-widget crate as `CGroupTree`
uses it: the selected index path (empty = nothing selected) and the set of
opened index paths. -/
structure TreeStateM where
  selected : List Nat
  opened : List (List Nat)
deriving DecidableEq

/-- Models the fold of `CGroupTree::cgroup_from_selected` (tree.rs lines
258-266): walk the index path, tracking the last visited node and the
current level; the Rust fold indexes `level[*e]` (a panic out of bounds),
modelled by carrying `none` and an empty level from that point on. -/
def cfsStep (acc : Option CGroup × List CGroup) (e : Nat) : Option CGroup × List CGroup :=
  match acc.2.get? e with
  | some cg => (some cg, cg.childList)
  | none => (none, [])

def cgroup_from_selected (cgroups : List CGroup) (selected : List Nat) : Option CGroup :=
  (selected.foldl cfsStep (none, cgroups)).1

/-- Recursive characterization of `cgroup_from_selected`: follow the index
path level by level. -/
def forestAt (cgroups : List CGroup) : List Nat → Option CGroup
  | [] => none
  | [e] => cgroups.get? e
  | e :: rest =>
    match cgroups.get? e with
    | none => none
    | some cg => forestAt cg.childList rest

/-- Lookup below a single node: the node itself for the empty path,
otherwise a descent into its children. -/
def nodeAt (cg : CGroup) : List Nat → Option CGroup
  | [] => some cg
  | e :: rest => forestAt cg.childList (e :: rest)

/-- `List.get?` on the mutual child list. -/
def CGroupsGet : CGroups → Nat → Option CGroup
  | .nil, _ => none
  | .cons c _, 0 => some c
  | .cons _ cs, n + 1 => CGroupsGet cs n

mutual
/-- Some node of the tree rooted at this node has the given path. -/
def pathInNodeB (p : List String) : CGroup → Bool
  | .mk path _ _ children => (path == p) || pathInForestB p children
/-- Some node of some tree of the forest has the given path. -/
def pathInForestB (p : List String) : CGroups → Bool
  | .nil => false
  | .cons c cs => pathInNodeB p c || pathInForestB p cs
end

mutual
/-- Models the per-node work of `CGroupTree::build_tree_level` (tree.rs
lines 70-118) for one node with its index path `next`: record `next` as
the pending selection if the node's path was the previously selected one,
re-open `next` if its path was previously opened, then process the
children (a selection found in the subtree overrides). -/
def build_tree_node (old_sel : Option (List String)) (old_opened : List (List String)) :
    CGroup → List Nat → Option (List Nat) × List (List Nat)
  | .mk path _ _ children, next =>
    let sel0 : Option (List Nat) := if old_sel = some path then some next else none
    let opens0 : List (List Nat) := if path ∈ old_opened then [next] else []
    let sub := build_tree_forest old_sel old_opened children next 0
    (sub.1.orElse (fun _ => sel0), opens0 ++ sub.2)
/-- The loop of `build_tree_level` over one level, with `cur` the level's
index-path prefix and `i` the enumeration index: a selection found later
in the loop overrides an earlier one. -/
def build_tree_forest (old_sel : Option (List String)) (old_opened : List (List String)) :
    CGroups → List Nat → Nat → Option (List Nat) × List (List Nat)
  | .nil, _, _ => (none, [])
  | .cons cg rest, cur, i =>
    let n := build_tree_node old_sel old_opened cg (cur ++ [i])
    let r := build_tree_forest old_sel old_opened rest cur (i + 1)
    (r.1.orElse (fun _ => n.1), n.2 ++ r.2)
end

/-- Models the reconciliation state of `CGroupTree` (tree.rs lines
14-21). -/
structure CGroupTreeM where
  cgroups : List CGroup
  state : TreeStateM
  single_root : Bool
deriving DecidableEq

/-- Models `CGroupTree::build_tree` (tree.rs lines 25-68) with the freshly
loaded node list passed in (the Rust code obtains it from `load_cgroups`
inside the function): save the selected node's logical path and the
opened nodes' logical paths, close everything, rebuild the index state by
path over the new list, select the reconciled index path or nothing, and
force-open a sole root exactly on the transition into single-root
mode. -/
def build_tree (t : CGroupTreeM) (new_cgroups : List CGroup) : CGroupTreeM :=
  let old_selected := (cgroup_from_selected t.cgroups t.state.selected).map CGroup.path
  let old_opened := t.state.opened.filterMap
    (fun sel => (cgroup_from_selected t.cgroups sel).map CGroup.path)
  let built := build_tree_forest old_selected old_opened (CGroups.ofList new_cgroups) [] 0
  let selected := match built.1 with
    | some sel => sel
    | none => []
  let st : TreeStateM := { selected := selected, opened := built.2 }
  if new_cgroups.length = 1 then
    if ¬ t.single_root then
      { cgroups := new_cgroups, state := { st with opened := [0] :: st.opened },
        single_root := true }
    else
      { cgroups := new_cgroups, state := st, single_root := true }
  else
    { cgroups := new_cgroups, state := st, single_root := false }

/-- Models `Iterator::position`: the index of the first element satisfying
the predicate, counting from `start`. -/
def positionAux (p : Proc → Bool) : List Proc → Nat → Option Nat
  | [], _ => none
  | q :: rest, s => if p q then some s else positionAux p rest (s + 1)

/-- Models `self.procs.iter().position(...)` (table.rs line 61). -/
def position (p : Proc → Bool) (l : List Proc) : Option Nat :=
  positionAux p l 0

/-- Models `ProcsTable::build_table` (table.rs lines 31-65) with the load
result passed in: save the selected row's pid, install the new rows (or
the error with no rows), then select the first row with the saved pid, or
nothing. -/
def build_table (t : ProcsTableM) (res : Except String (List Proc)) : ProcsTableM :=
  let old_selected_pid := match t.state.selected with
    | some i => (t.procs.get? i).map Proc.pid
    | none => none
  let procs := match res with
    | .ok ps => ps
    | .error _ => []
  let error := match res with
    | .ok _ => none
    | .error e => some e
  let selected := match old_selected_pid with
    | some pid => position (fun pr => pr.pid == pid) procs
    | none => none
  { error := error, procs := procs, state := { selected := selected } }


def oldTreeC6 : CGroupTreeM :=
  { cgroups := [.mk ["a"] none 3 .nil, .mk ["b"] none 5 .nil],
    state := { selected := [1], opened := [] },
    single_root := false }

def oldcgC6 : CGroup := .mk ["b"] none 5 .nil

def newForestC6 : List CGroup := [.mk ["b"] none 7 .nil, .mk ["x"] none 1 .nil]

def goneForestC6 : List CGroup := [.mk ["x"] none 1 .nil]

def oldTableC6 : ProcsTableM :=
  { error := none,
    procs := [{ pid := 10, cmd := "u", stat := .ok 1 }, { pid := 20, cmd := "v", stat := .ok 2 }],
    state := { selected := some 1 } }

def oldRowC6 : Proc := { pid := 20, cmd := "v", stat := .ok 2 }

/-! ### Theorems -/

theorem CGroups.toList_ofList (l : List CGroup) : (CGroups.ofList l).toList = l := by
  induction l with
  | nil => rfl
  | cons c cs ih => simp [CGroups.ofList, CGroups.toList, ih]

theorem CGroup.childList_mk (p : List String) (e : Option String) (s : Nat) (l : List CGroup) :
    (CGroup.mk p e s (CGroups.ofList l)).childList = l := by
  simp [CGroup.childList, CGroup.children, CGroups.toList_ofList]

theorem sort_children_path (sort : SortOrder) (c : CGroup) :
    (sort_children sort c).path = c.path := rfl

theorem sort_children_stat (sort : SortOrder) (c : CGroup) :
    (sort_children sort c).stat = c.stat := rfl

theorem sort_children_error (sort : SortOrder) (c : CGroup) :
    (sort_children sort c).error = c.error := rfl

theorem sort_children_perm (sort : SortOrder) (c : CGroup) :
    (sort_children sort c).childList.Perm c.childList := by
  have : (sort_children sort c).childList =
      List.insertionSort (fun a b => sortLe sort a b = true) c.childList := by
    simp [sort_children, CGroup.childList, CGroup.children, CGroups.toList_ofList]
  rw [this]
  exact List.perm_insertionSort _ _

theorem add_self_path (c : CGroup) : (add_self c).path = c.path := by
  unfold add_self
  split
  · split <;> rfl
  · rfl

theorem add_self_stat (c : CGroup) : (add_self c).stat = c.stat := by
  unfold add_self
  split
  · split <;> rfl
  · rfl

theorem add_self_error (c : CGroup) : (add_self c).error = c.error := by
  unfold add_self
  split
  · split <;> rfl
  · rfl

theorem add_self_cases (c : CGroup) :
    (c.childList = [] ∧ add_self c = c) ∨
    (c.childList ≠ [] ∧ ¬ childSum c.childList < c.stat ∧ add_self c = c) ∨
    (c.childList ≠ [] ∧ childSum c.childList < c.stat ∧
      add_self c = CGroup.mk c.path c.error c.stat (CGroups.ofList (c.childList ++
        [CGroup.mk (c.path ++ ["<self>"]) none (c.stat - childSum c.childList) .nil]))) := by
  unfold add_self
  split
  · next h =>
    split
    · next h2 => exact Or.inr (Or.inr ⟨h, h2, rfl⟩)
    · next h2 => exact Or.inr (Or.inl ⟨h, h2, rfl⟩)
  · next h => exact Or.inl ⟨not_not.mp h, rfl⟩

theorem allNodesB_def (p : CGroup → Bool) (c : CGroup) :
    allNodesB p c = (p c && allNodesListB p c.children) := by
  cases c
  rfl

theorem allNodesListB_eq_all (p : CGroup → Bool) :
    (cs : CGroups) → allNodesListB p cs = cs.toList.all (allNodesB p)
  | .nil => rfl
  | .cons c rest => by simp [allNodesListB, CGroups.toList, allNodesListB_eq_all p rest]

theorem allNodesB_children {p : CGroup → Bool} {c x : CGroup} (h : allNodesB p c = true)
    (hx : x ∈ c.childList) : allNodesB p x = true := by
  rw [allNodesB_def, Bool.and_eq_true] at h
  have h2 := h.2
  rw [allNodesListB_eq_all, List.all_eq_true] at h2
  exact h2 x hx

theorem goodCumulB_congr {m n : CGroup} (hp : m.path = n.path) (hs : m.stat = n.stat)
    (hc : m.childList.Perm n.childList) : goodCumulB m = goodCumulB n := by
  have hsum : childSum m.childList = childSum n.childList := by
    unfold childSum
    exact (hc.map CGroup.stat).sum_eq
  have hself : (selfKids m).Perm (selfKids n) := by
    unfold selfKids
    rw [hp]
    exact hc.filter _
  have hreal : (realKids m).Perm (realKids n) := by
    unfold realKids
    rw [hp]
    exact hc.filter _
  have hsumr : childSum (realKids m) = childSum (realKids n) := by
    unfold childSum
    exact (hreal.map CGroup.stat).sum_eq
  have hempty : decide (m.childList = []) = decide (n.childList = []) := by
    apply decide_eq_decide.mpr
    constructor
    · intro h
      rw [h] at hc
      exact hc.symm.eq_nil
    · intro h
      rw [h] at hc
      exact hc.eq_nil
  have hselfne : decide (selfKids m ≠ []) = decide (selfKids n ≠ []) := by
    apply decide_eq_decide.mpr
    constructor
    · intro h h2
      rw [h2] at hself
      exact h hself.eq_nil
    · intro h h2
      rw [h2] at hself
      exact h hself.symm.eq_nil
  have hall : ∀ f : CGroup → Bool, (selfKids m).all f = (selfKids n).all f := by
    intro f
    apply Bool.eq_iff_iff.mpr
    simp only [List.all_eq_true]
    exact ⟨fun h x hx => h x (hself.mem_iff.mpr hx), fun h x hx => h x (hself.mem_iff.mp hx)⟩
  unfold goodCumulB
  rw [hempty, hs, hsum, hsumr, hselfne, hall]

theorem CGroup.path_mk (p : List String) (e : Option String) (s : Nat) (cs : CGroups) :
    (CGroup.mk p e s cs).path = p := rfl

theorem CGroup.error_mk (p : List String) (e : Option String) (s : Nat) (cs : CGroups) :
    (CGroup.mk p e s cs).error = e := rfl

theorem CGroup.stat_mk (p : List String) (e : Option String) (s : Nat) (cs : CGroups) :
    (CGroup.mk p e s cs).stat = s := rfl

theorem childSum_append (l₁ l₂ : List CGroup) :
    childSum (l₁ ++ l₂) = childSum l₁ + childSum l₂ := by
  unfold childSum
  rw [List.map_append, List.sum_append]

theorem add_self_good (c : CGroup) (hns : ∀ x ∈ c.childList, x.path ≠ c.path ++ ["<self>"]) :
    goodCumulB (add_self c) = true := by
  have hsfk : (c.childList).filter (fun x => decide (x.path = c.path ++ ["<self>"])) = [] := by
    rw [List.filter_eq_nil_iff]
    intro x hx
    simp [hns x hx]
  have hrk : (c.childList).filter (fun x => decide (¬ x.path = c.path ++ ["<self>"])) = c.childList := by
    rw [List.filter_eq_self]
    intro x hx
    simp [hns x hx]
  rcases add_self_cases c with ⟨hnil, heq⟩ | ⟨hne, hnlt, heq⟩ | ⟨hne, hnlt, heq⟩
  · rw [heq]
    unfold goodCumulB
    simp [hnil]
  · rw [heq]
    unfold goodCumulB selfKids realKids
    rw [hsfk, hrk]
    simp [Nat.not_lt.mp hnlt, hnlt]
  · rw [heq]
    unfold goodCumulB selfKids realKids
    simp only [CGroup.childList_mk, CGroup.path_mk, CGroup.stat_mk, List.filter_append,
      hsfk, hrk, childSum_append]
    unfold childSum at hnlt ⊢
    simp [CGroup.path_mk, CGroup.stat_mk]
    omega

theorem load_path (sort : SortOrder) (d : FsDir) (rel : List String) (c : CGroup)
    (h : load_cgroup_rec sort d rel = .ok c) : c.path = rel := by
  cases d with
  | bad msg => simp [load_cgroup_rec] at h
  | good stat entries =>
    cases stat with
    | ok s =>
      simp [load_cgroup_rec] at h
      rw [← h, sort_children_path, add_self_path]
      rfl
    | error e =>
      simp [load_cgroup_rec] at h
      rw [← h, sort_children_path, add_self_path]
      rfl

theorem noSelfEntries_names : (es : FsEntries) → noSelfEntries es = true → "<self>" ∉ namesOf es
  | .nil => by simp [namesOf]
  | .cons name d rest => by
    intro h
    rw [noSelfEntries, Bool.and_eq_true, Bool.and_eq_true] at h
    simp only [namesOf, List.mem_cons]
    push_neg
    refine ⟨fun heq => ?_, noSelfEntries_names rest h.2⟩
    exact (of_decide_eq_true h.1.1) heq.symm

theorem loadChildren_mem (sort : SortOrder) :
    (es : FsEntries) → ∀ rel x, x ∈ load_children sort es rel →
      ∃ name, name ∈ namesOf es ∧ x.path = rel ++ [name]
  | .nil => by
    intro rel x hx
    simp [load_children] at hx
  | .cons name d rest => by
    intro rel x hx
    rw [load_children, List.mem_cons] at hx
    rcases hx with hx | hx
    · refine ⟨name, by simp [namesOf], ?_⟩
      rw [hx]
      cases hload : load_cgroup_rec sort d (rel ++ [name]) with
      | ok csub =>
        show csub.path = rel ++ [name]
        exact load_path sort d (rel ++ [name]) csub hload
      | error e => rfl
    · obtain ⟨nm, h1, h2⟩ := loadChildren_mem sort rest rel x hx
      exact ⟨nm, by simp [namesOf, h1], h2⟩

theorem allNodes_good_leaf (p : List String) (e : Option String) (s : Nat) :
    allNodesB goodCumulB (.mk p e s .nil) = true := by
  rw [allNodesB_def]
  unfold goodCumulB
  simp [CGroup.childList, CGroup.children, CGroups.toList, allNodesListB]

theorem loadRec_step (sort : SortOrder) (entries : FsEntries) (rel : List String)
    (err : Option String) (s : Nat)
    (hn : noSelfEntries entries = true)
    (hkids : ∀ x ∈ load_children sort entries rel, allNodesB goodCumulB x = true) :
    allNodesB goodCumulB
      (sort_children sort (add_self (.mk rel err s (CGroups.ofList (load_children sort entries rel))))) = true := by
  set base : CGroup := .mk rel err s (CGroups.ofList (load_children sort entries rel)) with hbase
  have hbl : base.childList = load_children sort entries rel := CGroup.childList_mk _ _ _ _
  have hbp : base.path = rel := rfl
  have hns : ∀ x ∈ base.childList, x.path ≠ base.path ++ ["<self>"] := by
    rw [hbl, hbp]
    intro x hx hcontra
    obtain ⟨nm, h1, h2⟩ := loadChildren_mem sort entries rel x hx
    rw [h2] at hcontra
    have : nm = "<self>" := by
      have := List.append_cancel_left hcontra
      simpa using this
    rw [this] at h1
    exact noSelfEntries_names entries hn h1
  rw [allNodesB_def, Bool.and_eq_true]
  constructor
  · rw [goodCumulB_congr (sort_children_path sort (add_self base))
      (sort_children_stat sort (add_self base)) (sort_children_perm sort (add_self base))]
    exact add_self_good base hns
  · rw [allNodesListB_eq_all, List.all_eq_true]
    intro x hx
    have hx2 : x ∈ (add_self base).childList :=
      (sort_children_perm sort (add_self base)).mem_iff.mp hx
    rcases add_self_cases base with ⟨_, heq⟩ | ⟨_, _, heq⟩ | ⟨_, _, heq⟩
    · rw [heq] at hx2
      exact hkids x (hbl ▸ hx2)
    · rw [heq] at hx2
      exact hkids x (hbl ▸ hx2)
    · rw [heq, CGroup.childList_mk, List.mem_append] at hx2
      rcases hx2 with hx2 | hx2
      · exact hkids x (hbl ▸ hx2)
      · rw [List.mem_singleton] at hx2
        rw [hx2]
        exact allNodes_good_leaf _ _ _

mutual
theorem loadRec_good (sort : SortOrder) :
    (d : FsDir) → noSelfDir d = true →
      ∀ rel c, load_cgroup_rec sort d rel = .ok c → allNodesB goodCumulB c = true
  | .bad msg => by
    intro h rel c hc
    simp [load_cgroup_rec] at hc
  | .good stat entries => by
    intro h rel c hc
    have hn : noSelfEntries entries = true := by simpa [noSelfDir] using h
    have hkids : ∀ x ∈ load_children sort entries rel, allNodesB goodCumulB x = true :=
      fun x hx => loadChildren_good sort entries hn rel x hx
    cases stat with
    | ok s =>
      simp [load_cgroup_rec] at hc
      rw [← hc]
      exact loadRec_step sort entries rel none s hn hkids
    | error e =>
      simp [load_cgroup_rec] at hc
      rw [← hc]
      exact loadRec_step sort entries rel (some e) 0 hn hkids
theorem loadChildren_good (sort : SortOrder) :
    (es : FsEntries) → noSelfEntries es = true →
      ∀ rel x, x ∈ load_children sort es rel → allNodesB goodCumulB x = true
  | .nil => by
    intro h rel x hx
    simp [load_children] at hx
  | .cons name d rest => by
    intro h rel x hx
    rw [noSelfEntries, Bool.and_eq_true, Bool.and_eq_true] at h
    rw [load_children, List.mem_cons] at hx
    rcases hx with hx | hx
    · rw [hx]
      cases hload : load_cgroup_rec sort d (rel ++ [name]) with
      | ok csub =>
        show allNodesB goodCumulB csub = true
        exact loadRec_good sort d h.1.2 (rel ++ [name]) csub hload
      | error e =>
        exact allNodes_good_leaf _ _ _
    · exact loadChildren_good sort rest h.2 rel x hx
end

theorem load_error_stat (sort : SortOrder) (d : FsDir) (rel : List String) (c : CGroup)
    (h : load_cgroup_rec sort d rel = .ok c) (he : c.error.isSome = true) : c.stat = 0 := by
  cases d with
  | bad msg => simp [load_cgroup_rec] at h
  | good stat entries =>
    cases stat with
    | ok s =>
      simp [load_cgroup_rec] at h
      rw [← h, sort_children_error, add_self_error] at he
      simp [CGroup.error_mk] at he
    | error e =>
      simp [load_cgroup_rec] at h
      rw [← h, sort_children_stat, add_self_stat]
      rfl

theorem loadChildren_errorLeaf (sort : SortOrder) :
    (es : FsEntries) → ∀ rel name msg, (name, FsDir.bad msg) ∈ es.toList →
      CGroup.new_error (rel ++ [name]) msg ∈ load_children sort es rel
  | .nil => by
    intro rel name msg h
    simp [FsEntries.toList] at h
  | .cons nm d rest => by
    intro rel name msg h
    rw [FsEntries.toList, List.mem_cons] at h
    rw [load_children, List.mem_cons]
    rcases h with h | h
    · left
      rw [Prod.mk.injEq] at h
      obtain ⟨h1, h2⟩ := h
      subst h1
      rw [← h2]
      rfl
    · right
      exact loadChildren_errorLeaf sort rest rel name msg h

theorem add_self_mem {c x : CGroup} (h : x ∈ c.childList) : x ∈ (add_self c).childList := by
  rcases add_self_cases c with ⟨_, heq⟩ | ⟨_, _, heq⟩ | ⟨_, _, heq⟩ <;> rw [heq]
  · exact h
  · exact h
  · rw [CGroup.childList_mk, List.mem_append]
    exact Or.inl h

/-- C1 (amended): for every cgroup node with children produced by the tree
loader on a hierarchy with no real directory named `"<self>"`, after
self-node synthesis the node's statistic is at most (not at least) the sum
of its children's statistics; a synthetic `"<self>"` child holding exactly
the node's own value minus the other children's sum is present if and only
if that sum was strictly less than the node's own value; and a self node
never holds a negative value (its statistic is the truncated difference,
only created when positive). -/
theorem C1_cumul_selfnode_invariant (fs : FsDir) (sort : SortOrder)
    (h : noSelfDir fs = true) :
    ∀ c ∈ load_cgroups fs sort, allNodesB goodCumulB c = true := by
  intro c hc
  unfold load_cgroups at hc
  cases hrec : load_cgroup_rec sort fs [] with
  | ok root =>
    rw [hrec] at hc
    have hall := loadRec_good sort fs h [] root hrec
    by_cases hz : root.stat = 0
    · simp [hz] at hc
      exact allNodesB_children hall hc
    · simp [hz] at hc
      rw [hc]
      exact hall
  | error e =>
    rw [hrec] at hc
    simp at hc
    rw [hc]
    exact allNodes_good_leaf _ _ _

/-- C1 counterexample: on a hierarchy whose root reads 5 while its single
child reads 10 (possible with concurrently-changing counters), the loaded
root keeps statistic 5 with a children sum of 10 and no self node, so the
claimed `node.stat ≥ sum(children.stat)` invariant is false. -/
theorem C1_counterexample :
    (load_cgroups fsC1cex .nameAsc).all (allNodesB claimC1B) = false := by decide

/-- Witness for C1 at the spec's end-to-end scenario (root 300, children
100 and 150, synthesized self node 50). -/
theorem C1_witness :
    noSelfDir fsC1w = true ∧
    ∀ c ∈ load_cgroups fsC1w .sizeDsc, allNodesB goodCumulB c = true :=
  ⟨by decide, C1_cumul_selfnode_invariant fsC1w .sizeDsc (by decide)⟩

/-- C5: at the top level, a root node that carries an error (its statistic
is necessarily zero) has its children returned directly; an unreadable
root directory degrades to a single error node rather than a propagated
exception; and a failing non-root subtree contributes exactly one error
leaf while the surrounding load still succeeds. -/
theorem C5_top_level_error_handling :
    (∀ (fs : FsDir) (sort : SortOrder) (root : CGroup),
        load_cgroup_rec sort fs [] = .ok root → root.error.isSome = true →
        root.childList ≠ [] → load_cgroups fs sort = root.childList) ∧
    (∀ (msg : String) (sort : SortOrder),
        load_cgroups (.bad msg) sort = [CGroup.new_error [] msg]) ∧
    (∀ (sort : SortOrder) (stat : Except String Nat) (entries : FsEntries)
        (rel : List String) (name msg : String),
        (name, FsDir.bad msg) ∈ entries.toList →
        ∃ c, load_cgroup_rec sort (.good stat entries) rel = .ok c ∧
          CGroup.new_error (rel ++ [name]) msg ∈ c.childList) := by
  refine ⟨?_, ?_, ?_⟩
  · intro fs sort root h he hne
    unfold load_cgroups
    rw [h]
    simp [load_error_stat sort fs [] root h he]
  · intro msg sort
    rfl
  · intro sort stat entries rel name msg hmem
    have hleaf := loadChildren_errorLeaf sort entries rel name msg hmem
    cases stat with
    | ok s =>
      refine ⟨_, rfl, ?_⟩
      apply (sort_children_perm _ _).mem_iff.mpr
      apply add_self_mem
      rw [CGroup.childList_mk]
      exact hleaf
    | error e =>
      refine ⟨_, rfl, ?_⟩
      apply (sort_children_perm _ _).mem_iff.mpr
      apply add_self_mem
      rw [CGroup.childList_mk]
      exact hleaf

/-- Witness for C5: a root with a stat error but one readable child yields
the children directly; an unreadable root yields one error node; a denied
subtree yields one error leaf. -/
theorem C5_witness :
    (load_cgroups fsC5a .nameAsc = rootC5.childList) ∧
    (load_cgroups (.bad "boom") .nameAsc = [CGroup.new_error [] "boom"]) ∧
    (∃ c, load_cgroup_rec .nameAsc (.good (.ok 7) entsC5) [] = .ok c ∧
        CGroup.new_error ["a"] "denied" ∈ c.childList) :=
  ⟨C5_top_level_error_handling.1 fsC5a .nameAsc rootC5 (by decide) (by decide) (by decide),
   C5_top_level_error_handling.2.1 "boom" .nameAsc,
   C5_top_level_error_handling.2.2 .nameAsc (.ok 7) entsC5 [] "a" "denied" (by decide)⟩


theorem keyedScan_eq_amended (m : Nat) (v : String) (r : Nat) :
    (lines : List String) → keyedScan m v r lines = keyedSpecAmended m v r lines
  | [] => rfl
  | line :: rest => by
    unfold keyedScan keyedSpecAmended
    by_cases h : m < (split_whitespace line).length ∧
        (split_whitespace line).getD (m - 1) "" = v
    · have hpred : (fun line => decide (m < (split_whitespace line).length) &&
          ((split_whitespace line).getD (m - 1) "" == v)) line = true := by
        simp only [Bool.and_eq_true, decide_eq_true_eq, beq_iff_eq]
        exact ⟨h.1, h.2⟩
      rw [List.find?_cons_of_pos rest hpred, if_pos h]
    · have hpred : ¬ ((fun line => decide (m < (split_whitespace line).length) &&
          ((split_whitespace line).getD (m - 1) "" == v)) line = true) := by
        simp only [Bool.and_eq_true, decide_eq_true_eq, beq_iff_eq]
        exact h
      rw [List.find?_cons_of_neg rest hpred, if_neg h]
      exact keyedScan_eq_amended m v r rest

/-- C3 (amended): for every file content and keyed extractor, the extractor
returns the r-th whitespace-split column of the first line that has
strictly more than m columns and whose m-th column is exactly equal to the
match value; every line with m or fewer columns is skipped silently, even
when its m-th column exists and matches; it returns ValueNotFound when no
such line exists or when the first such line has fewer than r columns. -/
theorem C3_keyed_column_extraction (p : KeyedProcessor) (file : String)
    (fs : FileSys) (path : List String) (lines : List String)
    (hf : p.file = some file) (hread : fs (path ++ [file]) = .ok lines) :
    p.get_value fs path = keyedSpecAmended p.match_col p.match_val p.ret_col lines := by
  unfold KeyedProcessor.get_value
  rw [hf]
  simp only
  rw [hread]
  exact keyedScan_eq_amended p.match_col p.match_val p.ret_col lines

/-- C3 counterexample: with match column 2, match value "v" and result
column 1, the line "200 v" has exactly 2 columns and its 2nd column equals
"v", so the claim predicts "200"; the code's strict `match_col <
columns.len()` guard skips the line and returns ValueNotFound. -/
theorem C3_counterexample :
    KeyedProcessor.get_value kpC3cex fsC3cex ["d"] = .error .valueNotFound ∧
    keyedClaimSpec 2 "v" 1 ["200 v"] = .ok "200" := by decide

/-- Witness for C3 on the spec's own example file. -/
theorem C3_witness :
    KeyedProcessor.get_value kpC3w fsC3w ["d"]
      = keyedSpecAmended 1 "file" 2 ["anon 100", "file 200"] ∧
    keyedSpecAmended 1 "file" 2 ["anon 100", "file 200"] = .ok "200" :=
  ⟨C3_keyed_column_extraction kpC3w "f" fsC3w ["d"] ["anon 100", "file 200"]
      (by rfl) (by decide),
   by decide⟩
/-- C4 (amended): the stat-definition parser, which never panics by
construction, follows the claim's rule list with one extra requirement in
every shape: the first segment (the file name) must be non-empty,
otherwise the result is Unrecognized (`none`); `parserSpecC4` is that
amended rule list written from the claim's words. -/
theorem C4_parser_rules (s : String) : get_file_processor s = parserSpecC4 s := by
  unfold get_file_processor parserSpecC4
  simp only
  rcases hseg : splitSlash s with _ | ⟨a, _ | ⟨b, _ | ⟨c, _ | ⟨d, _ | ⟨e, _ | ⟨f, t⟩⟩⟩⟩⟩⟩
  · simp
  · by_cases ha : a = "" <;> simp [ha]
  · by_cases ha : a = ""
    · simp [ha]
    · simp only [List.isEmpty_cons, List.headD_cons, ha]
      norm_num
      split <;> simp_all
  · by_cases ha : a = ""
    · simp [ha]
    · simp only [List.isEmpty_cons, List.headD_cons, ha]
      norm_num
      split <;> simp_all
  · by_cases ha : a = ""
    · simp [ha]
    · simp only [List.isEmpty_cons, List.headD_cons, ha]
      norm_num
      split <;> simp_all
  · by_cases ha : a = ""
    · simp [ha]
    · simp only [List.isEmpty_cons, List.headD_cons, ha]
      norm_num
      split
      · rw [if_pos rfl]
        by_cases hd : d = ""
        · rcases hmc : parseUsize c with _ | mc <;> rcases hrc : parseUsize e with _ | rc <;>
            simp [hd]
        · rcases hmc : parseUsize c with _ | mc <;> rcases hrc : parseUsize e with _ | rc <;>
            simp [hd]
      · simp_all
      · simp_all
  · by_cases ha : a = ""
    · simp [ha]
    · simp only [List.isEmpty_cons, List.headD_cons, ha]
      norm_num
      split <;> simp_all

/-- C4 counterexample: the string "/#" splits into exactly two segments
with segment 1 equal to "#", so the claim predicts a LineCount extractor,
but the parser's non-empty-first-segment sanity check returns
Unrecognized. -/
theorem C4_counterexample :
    splitSlash "/#" = ["", "#"] ∧ get_file_processor "/#" = none := by decide


theorem aggregate_qty_path (c : CGroup) : (aggregate_qty c).path = c.path := by
  unfold aggregate_qty
  split
  · split <;> rfl
  · rfl

theorem aggregate_qty_stat (c : CGroup) :
    (aggregate_qty c).stat = c.stat + childSum c.childList := by
  unfold aggregate_qty
  split
  · split <;> rfl
  · next h =>
    have : childSum c.childList = 0 := by omega
    simp [this]

theorem aggregate_qty_cases (c : CGroup) :
    (¬ 0 < childSum c.childList ∧ aggregate_qty c = c) ∨
    (0 < childSum c.childList ∧ c.stat ≠ 0 ∧
      aggregate_qty c = .mk c.path c.error (c.stat + childSum c.childList)
        (CGroups.ofList (c.childList ++ [.mk (c.path ++ ["<self>"]) none c.stat .nil]))) ∨
    (0 < childSum c.childList ∧ c.stat = 0 ∧
      aggregate_qty c = .mk c.path c.error (c.stat + childSum c.childList) c.children) := by
  unfold aggregate_qty
  split
  · next h =>
    split
    · next h2 => exact Or.inr (Or.inl ⟨h, h2, rfl⟩)
    · next h2 => exact Or.inr (Or.inr ⟨h, not_not.mp h2, rfl⟩)
  · next h => exact Or.inl ⟨h, rfl⟩

theorem goodQtyB_congr {m n : CGroup} (hp : m.path = n.path) (hs : m.stat = n.stat)
    (hc : m.childList.Perm n.childList) : goodQtyB m = goodQtyB n := by
  have hself : (selfKids m).Perm (selfKids n) := by
    unfold selfKids
    rw [hp]
    exact hc.filter _
  have hreal : (realKids m).Perm (realKids n) := by
    unfold realKids
    rw [hp]
    exact hc.filter _
  have hsumr : childSum (realKids m) = childSum (realKids n) := by
    unfold childSum
    exact (hreal.map CGroup.stat).sum_eq
  have hselfne : decide (selfKids m ≠ []) = decide (selfKids n ≠ []) := by
    apply decide_eq_decide.mpr
    constructor
    · intro h h2
      rw [h2] at hself
      exact h hself.eq_nil
    · intro h h2
      rw [h2] at hself
      exact h hself.symm.eq_nil
  have hall : ∀ f : CGroup → Bool, (selfKids m).all f = (selfKids n).all f := by
    intro f
    apply Bool.eq_iff_iff.mpr
    simp only [List.all_eq_true]
    exact ⟨fun h x hx => h x (hself.mem_iff.mpr hx), fun h x hx => h x (hself.mem_iff.mp hx)⟩
  unfold goodQtyB
  rw [hs, hsumr, hselfne, hall]

theorem goodQtyB_leaf (p : List String) (e : Option String) (s : Nat) :
    goodQtyB (.mk p e s .nil) = true := by
  unfold goodQtyB selfKids realKids
  simp [CGroup.childList, CGroup.children, CGroups.toList, childSum]

theorem allNodes_goodQty_leaf (p : List String) (e : Option String) (s : Nat) :
    allNodesB goodQtyB (.mk p e s .nil) = true := by
  rw [allNodesB_def, goodQtyB_leaf]
  rfl

theorem aggregate_qty_good (c : CGroup)
    (hns : ∀ x ∈ c.childList, x.path ≠ c.path ++ ["<self>"]) :
    goodQtyB (aggregate_qty c) = true := by
  have hsfk : (c.childList).filter (fun x => decide (x.path = c.path ++ ["<self>"])) = [] := by
    rw [List.filter_eq_nil_iff]
    intro x hx
    simp [hns x hx]
  have hrk : (c.childList).filter (fun x => decide (¬ x.path = c.path ++ ["<self>"])) = c.childList := by
    rw [List.filter_eq_self]
    intro x hx
    simp [hns x hx]
  rcases aggregate_qty_cases c with ⟨hz, heq⟩ | ⟨hpos, hnz, heq⟩ | ⟨hpos, hz, heq⟩
  · rw [heq]
    unfold goodQtyB selfKids realKids
    rw [hsfk, hrk]
    have h0 : childSum c.childList = 0 := by omega
    simp [h0]
  · rw [heq]
    unfold goodQtyB selfKids realKids
    simp only [CGroup.childList_mk, CGroup.path_mk, CGroup.stat_mk, List.filter_append,
      hsfk, hrk]
    simp [childSum, CGroup.path_mk, CGroup.stat_mk]
    unfold childSum at hpos
    exact ⟨Nat.pos_of_ne_zero hnz, hpos⟩
  · rw [heq]
    unfold goodQtyB selfKids realKids
    have hclm : (CGroup.mk c.path c.error (c.stat + childSum c.childList) c.children).childList
        = c.childList := rfl
    rw [hclm, CGroup.path_mk, hsfk, hrk, CGroup.stat_mk]
    simp [hz]

theorem load_path_typed (stype : StatType) (sort : SortOrder) (d : FsDir)
    (rel : List String) (c : CGroup)
    (h : load_cgroup_rec_typed stype sort d rel = .ok c) : c.path = rel := by
  cases d with
  | bad msg => simp [load_cgroup_rec_typed] at h
  | good stat entries =>
    cases stat with
    | ok s =>
      simp [load_cgroup_rec_typed] at h
      rw [← h, sort_children_path]
      cases stype with
      | memQtyCumul => rw [aggregate_step, add_self_path]; rfl
      | qty => rw [aggregate_step, aggregate_qty_path]; rfl
    | error e =>
      simp [load_cgroup_rec_typed] at h
      rw [← h, sort_children_path]
      cases stype with
      | memQtyCumul => rw [aggregate_step, add_self_path]; rfl
      | qty => rw [aggregate_step, aggregate_qty_path]; rfl

theorem loadChildren_mem_typed (stype : StatType) (sort : SortOrder) :
    (es : FsEntries) → ∀ rel x, x ∈ load_children_typed stype sort es rel →
      ∃ name, name ∈ namesOf es ∧ x.path = rel ++ [name]
  | .nil => by
    intro rel x hx
    simp [load_children_typed] at hx
  | .cons name d rest => by
    intro rel x hx
    rw [load_children_typed, List.mem_cons] at hx
    rcases hx with hx | hx
    · refine ⟨name, by simp [namesOf], ?_⟩
      rw [hx]
      cases hload : load_cgroup_rec_typed stype sort d (rel ++ [name]) with
      | ok csub =>
        show csub.path = rel ++ [name]
        exact load_path_typed stype sort d (rel ++ [name]) csub hload
      | error e => rfl
    · obtain ⟨nm, h1, h2⟩ := loadChildren_mem_typed stype sort rest rel x hx
      exact ⟨nm, by simp [namesOf, h1], h2⟩

theorem aggregate_qty_childList_mem {c x : CGroup}
    (hx : x ∈ (aggregate_qty c).childList) :
    x ∈ c.childList ∨ x = CGroup.mk (c.path ++ ["<self>"]) none c.stat .nil := by
  rcases aggregate_qty_cases c with ⟨_, heq⟩ | ⟨_, _, heq⟩ | ⟨_, _, heq⟩
  · rw [heq] at hx
    exact Or.inl hx
  · rw [heq, CGroup.childList_mk, List.mem_append] at hx
    rcases hx with hx | hx
    · exact Or.inl hx
    · rw [List.mem_singleton] at hx
      exact Or.inr hx
  · rw [heq] at hx
    exact Or.inl hx

theorem loadRecQty_step (sort : SortOrder) (entries : FsEntries) (rel : List String)
    (err : Option String) (s : Nat)
    (hn : noSelfEntries entries = true)
    (hkids : ∀ x ∈ load_children_typed .qty sort entries rel, allNodesB goodQtyB x = true) :
    allNodesB goodQtyB
      (sort_children sort (aggregate_qty
        (.mk rel err s (CGroups.ofList (load_children_typed .qty sort entries rel))))) = true := by
  set base : CGroup := .mk rel err s (CGroups.ofList (load_children_typed .qty sort entries rel))
    with hbase
  have hbl : base.childList = load_children_typed .qty sort entries rel :=
    CGroup.childList_mk _ _ _ _
  have hbp : base.path = rel := rfl
  have hns : ∀ x ∈ base.childList, x.path ≠ base.path ++ ["<self>"] := by
    rw [hbl, hbp]
    intro x hx hcontra
    obtain ⟨nm, h1, h2⟩ := loadChildren_mem_typed .qty sort entries rel x hx
    rw [h2] at hcontra
    have : nm = "<self>" := by
      have := List.append_cancel_left hcontra
      simpa using this
    rw [this] at h1
    exact noSelfEntries_names entries hn h1
  rw [allNodesB_def, Bool.and_eq_true]
  constructor
  · rw [goodQtyB_congr (sort_children_path sort (aggregate_qty base))
      (sort_children_stat sort (aggregate_qty base)) (sort_children_perm sort (aggregate_qty base))]
    exact aggregate_qty_good base hns
  · rw [allNodesListB_eq_all, List.all_eq_true]
    intro x hx
    have hx2 : x ∈ (aggregate_qty base).childList :=
      (sort_children_perm sort (aggregate_qty base)).mem_iff.mp hx
    rcases aggregate_qty_childList_mem hx2 with hx3 | hx3
    · exact hkids x (hbl ▸ hx3)
    · rw [hx3]
      exact allNodes_goodQty_leaf _ _ _

mutual
theorem loadRecQty_good (sort : SortOrder) :
    (d : FsDir) → noSelfDir d = true →
      ∀ rel c, load_cgroup_rec_typed .qty sort d rel = .ok c →
        c.stat = qtyTotal d ∧ allNodesB goodQtyB c = true
  | .bad msg => by
    intro h rel c hc
    simp [load_cgroup_rec_typed] at hc
  | .good stat entries => by
    intro h rel c hc
    have hn : noSelfEntries entries = true := by simpa [noSelfDir] using h
    have hrest := loadChildrenQty_good sort entries hn rel
    have hkids : ∀ x ∈ load_children_typed .qty sort entries rel, allNodesB goodQtyB x = true :=
      hrest.2
    have hsum : childSum (load_children_typed .qty sort entries rel) = qtyTotalEntries entries :=
      hrest.1
    cases stat with
    | ok s =>
      simp [load_cgroup_rec_typed] at hc
      rw [← hc]
      constructor
      · rw [sort_children_stat]
        show (aggregate_qty _).stat = qtyTotal (.good (.ok s) entries)
        rw [aggregate_qty_stat, CGroup.stat_mk, CGroup.childList_mk, hsum]
        rfl
      · exact loadRecQty_step sort entries rel none s hn hkids
    | error e =>
      simp [load_cgroup_rec_typed] at hc
      rw [← hc]
      constructor
      · rw [sort_children_stat]
        show (aggregate_qty _).stat = qtyTotal (.good (.error e) entries)
        rw [aggregate_qty_stat, CGroup.stat_mk, CGroup.childList_mk, hsum]
        rfl
      · exact loadRecQty_step sort entries rel (some e) 0 hn hkids
theorem loadChildrenQty_good (sort : SortOrder) :
    (es : FsEntries) → noSelfEntries es = true → ∀ rel,
      childSum (load_children_typed .qty sort es rel) = qtyTotalEntries es ∧
      ∀ x ∈ load_children_typed .qty sort es rel, allNodesB goodQtyB x = true
  | .nil => by
    intro h rel
    constructor
    · rfl
    · intro x hx
      simp [load_children_typed] at hx
  | .cons name d rest => by
    intro h rel
    rw [noSelfEntries, Bool.and_eq_true, Bool.and_eq_true] at h
    have hrest := loadChildrenQty_good sort rest h.2 rel
    constructor
    · rw [load_children_typed]
      show childSum (_ :: _) = _
      rw [show ∀ (a : CGroup) (l : List CGroup), childSum (a :: l) = a.stat + childSum l
          from fun a l => by unfold childSum; simp]
      rw [hrest.1]
      cases hload : load_cgroup_rec_typed .qty sort d (rel ++ [name]) with
      | ok csub =>
        have hcs := (loadRecQty_good sort d h.1.2 (rel ++ [name]) csub hload).1
        show csub.stat + qtyTotalEntries rest = qtyTotal d + qtyTotalEntries rest
        rw [hcs]
      | error e =>
        show (0 : Nat) + qtyTotalEntries rest = qtyTotal d + qtyTotalEntries rest
        cases d with
        | bad msg => rfl
        | good st ents => cases st <;> simp [load_cgroup_rec_typed] at hload
    · intro x hx
      rw [load_children_typed, List.mem_cons] at hx
      rcases hx with hx | hx
      · rw [hx]
        cases hload : load_cgroup_rec_typed .qty sort d (rel ++ [name]) with
        | ok csub =>
          show allNodesB goodQtyB csub = true
          exact (loadRecQty_good sort d h.1.2 (rel ++ [name]) csub hload).2
        | error e =>
          exact allNodes_goodQty_leaf _ _ _
      · exact hrest.2 x hx
end

/-- C2: for every cgroup node produced by the spec-modelled non-cumulative
(plain quantity) loader on a hierarchy with no real `"<self>"` directory,
the displayed statistic equals the original own value plus the sum of the
(aggregated) children's statistics — equivalently, writing S for the
non-self children's sum, `S ≤ stat` and the original own value is `stat -
S` — and a self node carrying exactly the original own value is present
iff that own value is positive and S is positive; moreover the statistic
of every loaded subtree root is the whole subtree's own-value total. -/
theorem C2_qty_aggregation :
    (∀ (fs : FsDir) (sort : SortOrder), noSelfDir fs = true →
        ∀ c ∈ load_cgroups_typed .qty fs sort, allNodesB goodQtyB c = true) ∧
    (∀ (fs : FsDir) (sort : SortOrder) (rel : List String) (c : CGroup),
        noSelfDir fs = true → load_cgroup_rec_typed .qty sort fs rel = .ok c →
        c.stat = qtyTotal fs) := by
  constructor
  · intro fs sort h c hc
    unfold load_cgroups_typed at hc
    cases hrec : load_cgroup_rec_typed .qty sort fs [] with
    | ok root =>
      rw [hrec] at hc
      have hall := (loadRecQty_good sort fs h [] root hrec).2
      by_cases hz : root.stat = 0
      · simp [hz] at hc
        exact allNodesB_children hall hc
      · simp [hz] at hc
        rw [hc]
        exact hall
    | error e =>
      rw [hrec] at hc
      simp at hc
      rw [hc]
      exact allNodes_goodQty_leaf _ _ _
  · intro fs sort rel c h hc
    exact (loadRecQty_good sort fs h rel c hc).1

/-- Witness for C2: a hierarchy with own value 2 and children 3 and 4
aggregates to a root displaying 9 with a self node carrying 2. -/
theorem C2_witness :
    noSelfDir fsC2w = true ∧
    (∀ c ∈ load_cgroups_typed .qty fsC2w .sizeAsc, allNodesB goodQtyB c = true) ∧
    (load_cgroup_rec_typed .qty .sizeAsc fsC2w [] = .ok rootC2w ∧
      rootC2w.stat = qtyTotal fsC2w) :=
  ⟨by decide,
   C2_qty_aggregation.1 fsC2w .sizeAsc (by decide),
   ⟨by decide,
    C2_qty_aggregation.2 fsC2w .sizeAsc [] rootC2w (by decide) (by decide)⟩⟩

theorem parsePids_err :
    (lines : List String) → (∃ l ∈ lines, parseUsize l = none) →
      ∃ e, parsePids lines = .error e
  | [] => by
    intro h
    simp at h
  | l :: ls => by
    intro h
    rcases h with ⟨x, hx, hpx⟩
    rw [List.mem_cons] at hx
    unfold parsePids
    rcases hx with hx | hx
    · rw [hx] at hpx
      rw [hpx]
      exact ⟨_, rfl⟩
    · cases hpl : parseUsize l with
      | none => exact ⟨_, rfl⟩
      | some n =>
        obtain ⟨e, he⟩ := parsePids_err ls ⟨x, hx, hpx⟩
        rw [he]
        exact ⟨e, rfl⟩

/-- C7: a non-numeric line in the target cgroup's own id file fails the
whole listing with an error, while (with descendants included) a child
whose subtree cannot be listed is silently skipped and contributes no
ids. -/
theorem C7_pid_error_handling :
    (∀ (procsFile threadsFile : Except String (List String)) (subs : PSubs)
        (threads include_children : Bool) (lines : List String),
        (if threads then threadsFile else procsFile) = .ok lines →
        (∃ l ∈ lines, parseUsize l = none) →
        ∃ e, load_pids threads include_children (.mk procsFile threadsFile subs) = .error e) ∧
    (∀ (threads : Bool) (d : PDir) (rest : PDirs) (e : String),
        load_pids threads true d = .error e →
        load_pids_each threads (.cons d rest) = load_pids_each threads rest) := by
  constructor
  · intro procsFile threadsFile subs threads include_children lines hfile hbad
    obtain ⟨e, he⟩ := parsePids_err lines hbad
    refine ⟨e, ?_⟩
    unfold load_pids
    rw [hfile]
    simp [he]
  · intro threads d rest e hload
    have hstep : load_pids_each threads (.cons d rest) =
        (match load_pids threads true d with
         | .ok ps => ps
         | .error _ => []) ++ load_pids_each threads rest := rfl
    rw [hstep, hload]
    rfl

/-- Witness for C7: the line "x9" fails the listing; a child whose id file
cannot be opened contributes nothing. -/
theorem C7_witness :
    (∃ e, load_pids false false pdC7 = .error e) ∧
    (load_pids_each false (.cons pdC7bad .nil) = load_pids_each false .nil) :=
  ⟨C7_pid_error_handling.1 (.ok ["12", "x9"]) (.ok []) (.ok .nil) false false
      ["12", "x9"] (by decide) ⟨"x9", by decide, by decide⟩,
   C7_pid_error_handling.2 false pdC7bad .nil "denied" (by decide)⟩

/-- C8: when the active statistic has a process-level analog whose
declared unit is kilobytes and whose extractor actually parses, every
successfully extracted per-process value is multiplied by exactly 1024
and extraction errors pass through unchanged; when the statistic has no
process-level analog, every entry's statistic is the fixed success value
zero (on the STATS table no analog implies no parseable process
definition, which also makes the source's panic arm — a processor present
with `ProcStatType::None` — unreachable).  One table row is an outlier:
index 8 (Swap Backed) declares a kilobyte analog but its process
definition string "status/=RssShmem:/2" is in a stale format the parser
rejects, so no extractor runs there and every entry is stored as `Ok 0`
(the claim's first part is vacuous at that statistic). -/
theorem C8_kb_normalization :
    (∀ (i : Nat) (processor : FileProc),
        get_file_processor (statAt i).proc_def = some processor →
        (statAt i).proc_stype = .memQtyKb →
        ∀ (cg : PDir) (procFs : Nat → FileSys) (inc threads : Bool) (sort : ProcSortOrder)
          (procs : List Proc), load_procs cg procFs inc threads i sort = .ok procs →
          ∀ p ∈ procs, p.stat = (match processor.get_stat (procFs p.pid) [] with
            | .ok v => .ok (v * 1024)
            | .error e => .error e)) ∧
    (∀ (i : Nat), (statAt i).proc_stype = ProcStatType.none →
        ∀ (cg : PDir) (procFs : Nat → FileSys) (inc threads : Bool) (sort : ProcSortOrder)
          (procs : List Proc), load_procs cg procFs inc threads i sort = .ok procs →
          ∀ p ∈ procs, p.stat = .ok 0) ∧
    ((statAt 8).proc_stype = ProcStatType.memQtyKb ∧
      get_file_processor (statAt 8).proc_def = none) := by
  refine ⟨?_, ?_, by decide⟩
  · intro i processor hproc htype cg procFs inc threads sort procs hload p hp
    unfold load_procs at hload
    cases hpids : load_pids threads inc cg with
    | error e => rw [hpids] at hload; simp at hload
    | ok pids =>
      rw [hpids] at hload
      simp only [Except.ok.injEq] at hload
      rw [← hload] at hp
      have hp2 := (List.perm_insertionSort _ _).mem_iff.mp hp
      rw [List.mem_map] at hp2
      obtain ⟨pid, _, hpeq⟩ := hp2
      rw [← hpeq]
      simp only [hproc, htype, procStatValue]
  · intro i htype cg procFs inc threads sort procs hload p hp
    have hproc : get_file_processor (statAt i).proc_def = none := by
      by_cases hi : i < STATS.length
      · have hall : ∀ j ∈ List.range STATS.length,
            (statAt j).proc_stype = ProcStatType.none →
              get_file_processor (statAt j).proc_def = none := by decide
        exact hall i (List.mem_range.mpr hi) htype
      · have hdef : statAt i = ⟨"", "", "", .memQtyCumul, "", "", .none⟩ := by
          unfold statAt
          exact List.getD_eq_default _ _ (Nat.le_of_not_lt hi)
        rw [hdef]
        rfl
    unfold load_procs at hload
    cases hpids : load_pids threads inc cg with
    | error e => rw [hpids] at hload; simp at hload
    | ok pids =>
      rw [hpids] at hload
      simp only [Except.ok.injEq] at hload
      rw [← hload] at hp
      have hp2 := (List.perm_insertionSort _ _).mem_iff.mp hp
      rw [List.mem_map] at hp2
      obtain ⟨pid, _, hpeq⟩ := hp2
      rw [← hpeq]
      simp only [hproc, procStatValue]

/-- C9: a stat sort falls back to the pid sort of the same direction when
the active statistic has no process-level analog; every other requested
order, and every order for statistics with an analog, is applied
unchanged. -/
theorem C9_stat_sort_fallback (i : Nat) (s : ProcSortOrder) :
    ((statAt i).proc_stype = ProcStatType.none →
      resolve_sort i .statAsc = .pidAsc ∧ resolve_sort i .statDsc = .pidDsc ∧
      (s ≠ .statAsc → s ≠ .statDsc → resolve_sort i s = s)) ∧
    ((statAt i).proc_stype ≠ ProcStatType.none → resolve_sort i s = s) := by
  constructor
  · intro h
    refine ⟨by simp [resolve_sort, h], by simp [resolve_sort, h], ?_⟩
    intro h1 h2
    unfold resolve_sort
    rw [if_pos h]
    cases s <;> simp_all
  · intro h
    unfold resolve_sort
    rw [if_neg h]

/-- Witness for C9 at the Processes statistic (no process analog, index
15) and the Current Total statistic (kilobyte analog, index 0). -/
theorem C9_witness :
    (resolve_sort 15 .statAsc = .pidAsc ∧ resolve_sort 15 .statDsc = .pidDsc ∧
      resolve_sort 15 .cmdAsc = .cmdAsc) ∧
    resolve_sort 0 .statAsc = .statAsc :=
  ⟨⟨((C9_stat_sort_fallback 15 .cmdAsc).1 (by decide)).1,
    ((C9_stat_sort_fallback 15 .cmdAsc).1 (by decide)).2.1,
    (((C9_stat_sort_fallback 15 .cmdAsc).1 (by decide)).2.2 (by decide) (by decide))⟩,
   (C9_stat_sort_fallback 0 .statAsc).2 (by decide)⟩

/-- C10: a path whose final component is the synthetic `"<self>"` sentinel
targets the parent path (the sentinel is removed), any other path is
targeted unchanged, and in both cases the table's selection state is
reset. -/
theorem C10_self_sentinel_target (scene : ProcsSceneM) (p : List String) :
    (p.getLast? = some "<self>" → (scene.set_cgroup p).cgroup = p.dropLast) ∧
    (p.getLast? ≠ some "<self>" → (scene.set_cgroup p).cgroup = p) ∧
    (scene.set_cgroup p).table.state.selected = none := by
  refine ⟨?_, ?_, ?_⟩
  · intro h
    simp [ProcsSceneM.set_cgroup, h]
  · intro h
    simp [ProcsSceneM.set_cgroup, h]
  · rfl

/-- Witness for C10 on a selected table: the sentinel is stripped, other
paths pass through, selection is cleared. -/
theorem C10_witness :
    ((sceneC10.set_cgroup ["a", "<self>"]).cgroup = ["a"] ∧
      (sceneC10.set_cgroup ["a", "<self>"]).table.state.selected = none) ∧
    ((sceneC10.set_cgroup ["a", "b"]).cgroup = ["a", "b"] ∧
      (sceneC10.set_cgroup ["a", "b"]).table.state.selected = none) :=
  ⟨⟨(C10_self_sentinel_target sceneC10 ["a", "<self>"]).1 (by decide),
    (C10_self_sentinel_target sceneC10 ["a", "<self>"]).2.2⟩,
   ⟨(C10_self_sentinel_target sceneC10 ["a", "b"]).2.1 (by decide),
    (C10_self_sentinel_target sceneC10 ["a", "b"]).2.2⟩⟩

/-- Witness for C8: pid 42 with a VmRSS of 4 kB is stored as 4096 bytes
under the Current Total statistic (index 0), and as the fixed `Ok 0`
under the Processes statistic (index 15). -/
theorem C8_witness :
    (∀ p ∈ [({ pid := 42, cmd := "foo", stat := .ok 4096 } : Proc)],
        p.stat = (match procC8.get_stat (procFsC8 p.pid) [] with
          | .ok v => Except.ok (v * 1024)
          | .error e => .error e)) ∧
    (∀ p ∈ [({ pid := 42, cmd := "foo", stat := .ok 0 } : Proc)], p.stat = .ok 0) :=
  ⟨C8_kb_normalization.1 0 procC8 (by decide) (by decide) cgC8 procFsC8 false false
      .pidAsc [{ pid := 42, cmd := "foo", stat := .ok 4096 }] (by decide),
   C8_kb_normalization.2.1 15 (by decide) cgC8 procFsC8 false false
      .pidAsc [{ pid := 42, cmd := "foo", stat := .ok 0 }] (by decide)⟩


theorem CGroupsGet_eq : (cs : CGroups) → ∀ n, CGroupsGet cs n = cs.toList.get? n
  | .nil => by intro n; cases n <;> rfl
  | .cons c rest => by
    intro n
    cases n with
    | zero => rfl
    | succ m => simpa [CGroupsGet, CGroups.toList] using CGroupsGet_eq rest m

theorem forestAt_cons (cgs : List CGroup) (j : Nat) (suffix : List Nat) :
    forestAt cgs (j :: suffix) =
      match cgs.get? j with
      | none => none
      | some cg => nodeAt cg suffix := by
  cases suffix with
  | nil =>
    show cgs.get? j = _
    cases hget : cgs.get? j <;> rfl
  | cons e rest =>
    show (match cgs.get? j with
      | none => none
      | some cg => forestAt cg.childList (e :: rest)) = _
    cases hget : cgs.get? j <;> rfl

theorem cfs_shift (rest : List Nat) (a : Option CGroup) (level : List CGroup) (e : Nat) :
    ((e :: rest).foldl cfsStep (a, level)).1 = ((e :: rest).foldl cfsStep (none, level)).1 := rfl

theorem cfs_foldl_nil : (sel : List Nat) → (sel.foldl cfsStep (none, ([] : List CGroup))).1 = none
  | [] => rfl
  | e :: rest => by
    rw [List.foldl_cons]
    show (rest.foldl cfsStep ((none : Option CGroup), ([] : List CGroup))).1 = none
    exact cfs_foldl_nil rest

theorem cgroup_from_selected_eq : (sel : List Nat) → ∀ cgroups,
    cgroup_from_selected cgroups sel = forestAt cgroups sel
  | [] => fun _ => rfl
  | e :: rest => by
    intro cgroups
    unfold cgroup_from_selected
    rw [List.foldl_cons, forestAt_cons]
    cases hget : cgroups.get? e with
    | none =>
      have hstep : cfsStep (none, cgroups) e = ((none : Option CGroup), ([] : List CGroup)) := by
        unfold cfsStep
        rw [show ((none : Option CGroup), cgroups).2 = cgroups from rfl, hget]
      rw [hstep]
      exact cfs_foldl_nil rest
    | some cg =>
      have hstep : cfsStep (none, cgroups) e = (some cg, cg.childList) := by
        unfold cfsStep
        rw [show ((none : Option CGroup), cgroups).2 = cgroups from rfl, hget]
      rw [hstep]
      cases rest with
      | nil => rfl
      | cons e2 rest2 =>
        rw [show ((e2 :: rest2).foldl cfsStep ((some cg : Option CGroup), cg.childList)).1 =
            cgroup_from_selected cg.childList (e2 :: rest2) from
          cfs_shift rest2 (some cg) cg.childList e2]
        rw [cgroup_from_selected_eq (e2 :: rest2) cg.childList]
        rfl

mutual
theorem btn_isSome (p : List String) (oo : List (List String)) :
    (cg : CGroup) → ∀ next,
      (build_tree_node (some p) oo cg next).1.isSome = pathInNodeB p cg
  | .mk path err stat children => by
    intro next
    unfold build_tree_node pathInNodeB
    simp only
    cases hsub : (build_tree_forest (some p) oo children next 0).1 with
    | some s =>
      have haux := btn_aux_forest p oo children next 0
      rw [hsub] at haux
      simp at haux
      simp [Option.orElse, haux]
    | none =>
      have haux := btn_aux_forest p oo children next 0
      rw [hsub] at haux
      simp at haux
      simp only [Option.orElse, haux, Bool.or_false]
      by_cases hp : p = path
      · subst hp
        simp
      · rw [if_neg (fun h => hp (Option.some.inj h))]
        simp only [Option.isSome_none]
        symm
        exact beq_eq_false_iff_ne.mpr (fun h => hp h.symm)
theorem btn_aux_forest (p : List String) (oo : List (List String)) :
    (cs : CGroups) → ∀ cur i,
      (build_tree_forest (some p) oo cs cur i).1.isSome = pathInForestB p cs
  | .nil => by
    intro cur i
    rfl
  | .cons cg rest => by
    intro cur i
    unfold build_tree_forest pathInForestB
    simp only
    cases hr : (build_tree_forest (some p) oo rest cur (i + 1)).1 with
    | some s =>
      have hrest := btn_aux_forest p oo rest cur (i + 1)
      rw [hr] at hrest
      simp at hrest
      simp [Option.orElse, hrest]
    | none =>
      have hrest := btn_aux_forest p oo rest cur (i + 1)
      rw [hr] at hrest
      simp at hrest
      have hnode := btn_isSome p oo cg (cur ++ [i])
      simp only [Option.orElse, hrest, Bool.or_false]
      exact hnode
end

mutual
theorem btn_some (p : List String) (oo : List (List String)) :
    (cg : CGroup) → ∀ next sel,
      (build_tree_node (some p) oo cg next).1 = some sel →
      ∃ suffix node, sel = next ++ suffix ∧ nodeAt cg suffix = some node ∧ node.path = p
  | .mk path err stat children => by
    intro next sel h
    unfold build_tree_node at h
    simp only at h
    cases hsub : (build_tree_forest (some p) oo children next 0).1 with
    | some s =>
      rw [hsub] at h
      simp [Option.orElse] at h
      obtain ⟨j, suffix, node, cg', hij, hget, hsel, hnode, hpath⟩ :=
        btf_some p oo children next 0 s hsub
      refine ⟨j :: suffix, node, ?_, ?_, hpath⟩
      · rw [← h, hsel]
      · show forestAt (CGroup.mk path err stat children).childList (j :: suffix) = some node
        rw [forestAt_cons]
        have hg : (CGroup.mk path err stat children).childList.get? j = some cg' := by
          show children.toList.get? j = some cg'
          rw [← CGroupsGet_eq]
          simpa using hget
        rw [hg]
        exact hnode
    | none =>
      rw [hsub] at h
      simp [Option.orElse] at h
      obtain ⟨hp, hnext⟩ := h
      refine ⟨[], .mk path err stat children, by simp [hnext], rfl, ?_⟩
      show path = p
      exact hp.symm
theorem btf_some (p : List String) (oo : List (List String)) :
    (cs : CGroups) → ∀ cur i sel,
      (build_tree_forest (some p) oo cs cur i).1 = some sel →
      ∃ j suffix node cg', i ≤ j ∧ CGroupsGet cs (j - i) = some cg' ∧
        sel = cur ++ j :: suffix ∧ nodeAt cg' suffix = some node ∧ node.path = p
  | .nil => by
    intro cur i sel h
    simp [build_tree_forest] at h
  | .cons cg rest => by
    intro cur i sel h
    unfold build_tree_forest at h
    simp only at h
    cases hr : (build_tree_forest (some p) oo rest cur (i + 1)).1 with
    | some s =>
      rw [hr] at h
      simp [Option.orElse] at h
      obtain ⟨j, suffix, node, cg', hij, hget, hsel, hnode, hpath⟩ :=
        btf_some p oo rest cur (i + 1) s hr
      refine ⟨j, suffix, node, cg', by omega, ?_, by rw [← h, hsel], hnode, hpath⟩
      have harith : j - i = (j - (i + 1)) + 1 := by omega
      rw [harith]
      exact hget
    | none =>
      rw [hr] at h
      simp [Option.orElse] at h
      obtain ⟨suffix, node, hsel, hnode, hpath⟩ := btn_some p oo cg (cur ++ [i]) sel h
      refine ⟨i, suffix, node, cg, le_refl i, ?_, ?_, hnode, hpath⟩
      · simp [CGroupsGet]
      · rw [hsel]
        simp
end

theorem build_tree_cgroups (t : CGroupTreeM) (new_cgroups : List CGroup) :
    (build_tree t new_cgroups).cgroups = new_cgroups := by
  unfold build_tree
  simp only
  split
  · split <;> rfl
  · rfl

theorem build_tree_selected (t : CGroupTreeM) (new_cgroups : List CGroup) :
    (build_tree t new_cgroups).state.selected =
      match (build_tree_forest
          ((cgroup_from_selected t.cgroups t.state.selected).map CGroup.path)
          (t.state.opened.filterMap
            (fun sel => (cgroup_from_selected t.cgroups sel).map CGroup.path))
          (CGroups.ofList new_cgroups) [] 0).1 with
      | some sel => sel
      | none => [] := by
  unfold build_tree
  simp only
  split
  · split <;> rfl
  · rfl

theorem position_present : (procs : List Proc) → ∀ pid s,
    (∃ q ∈ procs, q.pid = pid) →
    ∃ i, positionAux (fun pr => pr.pid == pid) procs s = some i ∧ s ≤ i ∧
      ∃ q, procs.get? (i - s) = some q ∧ q.pid = pid
  | [] => by
    intro pid s h
    simp at h
  | q :: rest => by
    intro pid s h
    by_cases hq : q.pid = pid
    · refine ⟨s, ?_, le_refl s, q, ?_, hq⟩
      · simp [positionAux, hq]
      · simp
    · have hex : ∃ q2 ∈ rest, q2.pid = pid := by
        obtain ⟨q2, hmem, hpid⟩ := h
        rcases List.mem_cons.mp hmem with rfl | hmem2
        · exact absurd hpid hq
        · exact ⟨q2, hmem2, hpid⟩
      obtain ⟨i, hfind, hsi, q2, hget, hpid⟩ := position_present rest pid (s + 1) hex
      refine ⟨i, ?_, by omega, q2, ?_, hpid⟩
      · rw [positionAux, if_neg (by simp [hq])]
        exact hfind
      · have harith : i - s = (i - (s + 1)) + 1 := by omega
        rw [harith]
        simpa using hget

theorem position_absent : (procs : List Proc) → ∀ pid s,
    (∀ q ∈ procs, q.pid ≠ pid) →
    positionAux (fun pr => pr.pid == pid) procs s = none
  | [] => by
    intro pid s h
    rfl
  | q :: rest => by
    intro pid s h
    have hq : ¬ q.pid = pid := h q (by simp)
    rw [positionAux, if_neg (by simp [hq])]
    exact position_absent rest pid (s + 1) (fun q2 hq2 => h q2 (by simp [hq2]))

/-- C6: for both views, rebuilding preserves selection by logical identity:
a previously selected tree node whose path still occurs anywhere in the
rebuilt forest is selected again (the stored index path resolves to a
node with the same logical path); if the path is gone the selection
becomes the empty index path; a previously selected table row whose pid
still occurs in the reloaded rows is selected again at its new position;
if the pid is gone the table selection becomes `none` — never an
arbitrary fallback index. -/
theorem C6_selection_reconciliation :
    (∀ (t : CGroupTreeM) (new_cgroups : List CGroup) (oldcg : CGroup),
        cgroup_from_selected t.cgroups t.state.selected = some oldcg →
        pathInForestB oldcg.path (CGroups.ofList new_cgroups) = true →
        ∃ node, cgroup_from_selected (build_tree t new_cgroups).cgroups
            (build_tree t new_cgroups).state.selected = some node ∧
          node.path = oldcg.path) ∧
    (∀ (t : CGroupTreeM) (new_cgroups : List CGroup) (oldcg : CGroup),
        cgroup_from_selected t.cgroups t.state.selected = some oldcg →
        pathInForestB oldcg.path (CGroups.ofList new_cgroups) = false →
        (build_tree t new_cgroups).state.selected = []) ∧
    (∀ (t : ProcsTableM) (res : Except String (List Proc)) (i : Nat) (q : Proc),
        t.state.selected = some i → t.procs.get? i = some q →
        (∃ q2 ∈ (build_table t res).procs, q2.pid = q.pid) →
        ∃ j q3, (build_table t res).state.selected = some j ∧
          (build_table t res).procs.get? j = some q3 ∧ q3.pid = q.pid) ∧
    (∀ (t : ProcsTableM) (res : Except String (List Proc)) (i : Nat) (q : Proc),
        t.state.selected = some i → t.procs.get? i = some q →
        (∀ q2 ∈ (build_table t res).procs, q2.pid ≠ q.pid) →
        (build_table t res).state.selected = none) := by
  refine ⟨?_, ?_, ?_, ?_⟩
  · intro t new_cgroups oldcg hsel hin
    have hproj1 := build_tree_cgroups t new_cgroups
    have hproj2 := build_tree_selected t new_cgroups
    simp only [hsel, Option.map_some'] at hproj2
    have hiss := btn_aux_forest oldcg.path
      (t.state.opened.filterMap
        (fun sel => (cgroup_from_selected t.cgroups sel).map CGroup.path))
      (CGroups.ofList new_cgroups) [] 0
    rw [hin] at hiss
    obtain ⟨sel, hselres⟩ := Option.isSome_iff_exists.mp hiss
    rw [hselres] at hproj2
    obtain ⟨j, suffix, node, cg', _, hget, hsel2, hnode, hpath⟩ :=
      btf_some oldcg.path _ (CGroups.ofList new_cgroups) [] 0 sel hselres
    refine ⟨node, ?_, hpath⟩
    rw [hproj1, hproj2, cgroup_from_selected_eq]
    rw [hsel2]
    simp only [List.nil_append]
    rw [forestAt_cons]
    have hg : new_cgroups.get? j = some cg' := by
      have := hget
      rw [CGroupsGet_eq, CGroups.toList_ofList] at this
      simpa using this
    rw [hg]
    exact hnode
  · intro t new_cgroups oldcg hsel hnotin
    have hproj2 := build_tree_selected t new_cgroups
    simp only [hsel, Option.map_some'] at hproj2
    have hiss := btn_aux_forest oldcg.path
      (t.state.opened.filterMap
        (fun sel => (cgroup_from_selected t.cgroups sel).map CGroup.path))
      (CGroups.ofList new_cgroups) [] 0
    rw [hnotin] at hiss
    cases hres : (build_tree_forest (some oldcg.path)
        (t.state.opened.filterMap
          (fun sel => (cgroup_from_selected t.cgroups sel).map CGroup.path))
        (CGroups.ofList new_cgroups) [] 0).1 with
    | some s =>
      rw [hres] at hiss
      simp at hiss
    | none =>
      rw [hres] at hproj2
      exact hproj2
  · intro t res i q hsel hget hex
    cases res with
    | error e =>
      unfold build_table at hex
      simp [hsel, hget] at hex
    | ok ps =>
      unfold build_table at hex ⊢
      simp only [hsel, hget, Option.map_some'] at hex ⊢
      obtain ⟨j, hfind, _, q3, hget3, hpid3⟩ := position_present ps q.pid 0 hex
      refine ⟨j, q3, hfind, ?_, hpid3⟩
      simpa using hget3
  · intro t res i q hsel hget habs
    cases res with
    | error e =>
      unfold build_table
      simp only [hsel, hget, Option.map_some']
      rfl
    | ok ps =>
      unfold build_table at habs ⊢
      simp only [hsel, hget, Option.map_some'] at habs ⊢
      exact position_absent ps q.pid 0 habs
/-- Witness for C6: the node at path b, previously selected at index 1, is
selected again after a rebuild that moves it to index 0; it is deselected
when the path disappears; the row with pid 20 is re-selected at its new
position and deselected when the pid disappears. -/
theorem C6_witness :
    (∃ node, cgroup_from_selected (build_tree oldTreeC6 newForestC6).cgroups
        (build_tree oldTreeC6 newForestC6).state.selected = some node ∧
      node.path = oldcgC6.path) ∧
    (build_tree oldTreeC6 goneForestC6).state.selected = [] ∧
    (∃ j q3, (build_table oldTableC6 (.ok [{ pid := 20, cmd := "w", stat := .ok 9 }])).state.selected = some j ∧
      (build_table oldTableC6 (.ok [{ pid := 20, cmd := "w", stat := .ok 9 }])).procs.get? j = some q3 ∧
      q3.pid = oldRowC6.pid) ∧
    (build_table oldTableC6 (.ok [{ pid := 30, cmd := "w", stat := .ok 9 }])).state.selected = none :=
  ⟨C6_selection_reconciliation.1 oldTreeC6 newForestC6 oldcgC6 (by decide) (by decide),
   C6_selection_reconciliation.2.1 oldTreeC6 goneForestC6 oldcgC6 (by decide) (by decide),
   C6_selection_reconciliation.2.2.1 oldTableC6 (.ok [{ pid := 20, cmd := "w", stat := .ok 9 }])
     1 oldRowC6 (by decide) (by decide) ⟨{ pid := 20, cmd := "w", stat := .ok 9 }, by decide, by decide⟩,
   C6_selection_reconciliation.2.2.2 oldTableC6 (.ok [{ pid := 30, cmd := "w", stat := .ok 9 }])
     1 oldRowC6 (by decide) (by decide) (by decide)⟩

end CgroupMem
